import Mathlib

/-!
Verification development for the decision core of the Image-Seperator
repository: per-shape classification (`src/core/classifier.py`) and spatial
clustering (`src/core/clusterer.py`).

Modelling conventions:
* Real-valued quantities of the Python code are modelled as rationals (`ℚ`).
* External geometric primitives that the classifier calls (OpenCV's
  `contourArea`, `arcLength`, `approxPolyDP`, ..., NumPy's `sqrt`) are not
  part of the translated code; they are bundled into a `Geom` record that is
  an explicit input of the embedding.
* Python dictionaries with a fixed key set become structures.  The dictionary
  returned by `_default_properties` omits the three keys produced by
  `_analyze_geometric_features`, so those three fields are `Option ℚ`
  (`none` = key absent).
-/

namespace ImageSep

/-- Classification labels, mirroring `ContentType` in classifier.py. -/
inductive ContentType where
  | handwriting
  | diagram
  | uncertain
deriving DecidableEq, Repr

/-- The feature record consumed by `classify_contour` (the keys it reads from
the `properties` dict, classifier.py lines 305-315). -/
structure ClassifyProps where
  area : ℚ
  aspect_ratio : ℚ
  solidity : ℚ
  circularity : ℚ
  extent : ℚ
  straightness : ℚ
  regularity_score : ℚ
  has_straight_lines : Bool
  has_perfect_curves : Bool
  corner_count : Nat
deriving DecidableEq, Repr

/-- Guard of the sketch-detection bonus (`is_complex_shape`,
classifier.py lines 371-377). -/
def is_complex_shape (p : ClassifyProps) : Bool :=
  decide (p.area > 800 ∧ (0.15 ≤ p.aspect_ratio ∧ p.aspect_ratio ≤ 6.0) ∧
    p.extent > 0.1 ∧ p.corner_count ≥ 3 ∧ p.regularity_score < 0.9)

/-- Guard of the simple-line rejection (`is_simple_line`,
classifier.py lines 383-387). -/
def is_simple_line (p : ClassifyProps) : Bool :=
  decide ((p.aspect_ratio > 8 ∨ p.aspect_ratio < 0.125) ∧
    p.straightness > 0.7 ∧ p.corner_count ≤ 4)

/-- Size check (classifier.py lines 322-325): pair of increments added to
(diagram_indicators, handwriting_indicators). -/
def size_block (p : ClassifyProps) : ℚ × ℚ :=
  if p.area > 5000 then (1, 0) else if p.area < 1500 then (0, 0.5) else (0, 0)

/-- Shape-regularity check (classifier.py lines 328-331). -/
def regularity_block (p : ClassifyProps) : ℚ × ℚ :=
  if p.regularity_score > 0.7 then (2, 0)
  else if p.regularity_score < 0.3 then (0, 1) else (0, 0)

/-- Straight-line geometric check (classifier.py lines 334-335). -/
def straight_lines_block (p : ClassifyProps) : ℚ × ℚ :=
  if p.has_straight_lines ∧ p.corner_count ≤ 8 then (2, 0) else (0, 0)

/-- Perfect-curve geometric check (classifier.py lines 337-338). -/
def perfect_curves_block (p : ClassifyProps) : ℚ × ℚ :=
  if p.has_perfect_curves then (2, 0) else (0, 0)

/-- Aspect-ratio check with line detection (classifier.py lines 341-349).
In the very-elongated branch both arms of the inner conditional add 1 to
handwriting_indicators, exactly as in the source. -/
def aspect_block (p : ClassifyProps) : ℚ × ℚ :=
  if 0.8 ≤ p.aspect_ratio ∧ p.aspect_ratio ≤ 1.2 then (1, 0)
  else if p.aspect_ratio > 10 ∨ p.aspect_ratio < 0.1 then (0, 2)
  else if p.aspect_ratio > 5 ∨ p.aspect_ratio < 0.2 then
    (if p.straightness > 0.8 then (0, 1) else (0, 1))
  else (0, 0)

/-- Solidity check (classifier.py lines 352-355). -/
def solidity_block (p : ClassifyProps) : ℚ × ℚ :=
  if p.solidity > 0.9 then (1, 0) else if p.solidity < 0.5 then (0, 1) else (0, 0)

/-- Circularity check (classifier.py lines 358-362). -/
def circularity_block (p : ClassifyProps) : ℚ × ℚ :=
  if p.circularity > 0.7 then (2, 0)
  else if p.circularity < 0.1 then
    (if p.has_straight_lines then (0, 0) else (0, 1))
  else (0, 0)

/-- Extent check (classifier.py lines 365-368). -/
def extent_block (p : ClassifyProps) : ℚ × ℚ :=
  if p.extent > 0.8 then (1, 0) else if p.extent < 0.3 then (0, 1) else (0, 0)

/-- Complex-shape bonus (classifier.py lines 379-380). -/
def complex_block (p : ClassifyProps) : ℚ × ℚ :=
  if is_complex_shape p then (5, 0) else (0, 0)

/-- Simple-line rejection bonus (classifier.py lines 389-390). -/
def simple_line_block (p : ClassifyProps) : ℚ × ℚ :=
  if is_simple_line p then (0, 3) else (0, 0)

/-- Medium-size sketch boost (classifier.py lines 393-395). -/
def medium_boost_block (p : ClassifyProps) : ℚ × ℚ :=
  if p.area > 1500 ∧ p.aspect_ratio > 0.3 ∧ p.aspect_ratio < 3.0 ∧
     p.extent > 0.2 ∧ is_simple_line p = false
  then (2, 0) else (0, 0)

/-- Final value of the `diagram_indicators` accumulator of `classify_contour`:
the checks are independent, each adds its increment to exactly one
accumulator, so sequential accumulation equals the sum of the blocks. -/
def diagram_indicators (p : ClassifyProps) : ℚ :=
  (size_block p).1 + (regularity_block p).1 + (straight_lines_block p).1 +
  (perfect_curves_block p).1 + (aspect_block p).1 + (solidity_block p).1 +
  (circularity_block p).1 + (extent_block p).1 + (complex_block p).1 +
  (simple_line_block p).1 + (medium_boost_block p).1

/-- Final value of the `handwriting_indicators` accumulator of
`classify_contour`. -/
def handwriting_indicators (p : ClassifyProps) : ℚ :=
  (size_block p).2 + (regularity_block p).2 + (straight_lines_block p).2 +
  (perfect_curves_block p).2 + (aspect_block p).2 + (solidity_block p).2 +
  (circularity_block p).2 + (extent_block p).2 + (complex_block p).2 +
  (simple_line_block p).2 + (medium_boost_block p).2

/-- Translation of `diagram_confidence` as computed by classify_contour when the total is
nonzero (classifier.py line 403). -/
def diagram_confidence (p : ClassifyProps) : ℚ :=
  diagram_indicators p / (diagram_indicators p + handwriting_indicators p)

/-- Decision rule of `classify_contour` (classifier.py lines 397-412),
operating on an already-computed properties record. -/
def classify_contour (p : ClassifyProps) : ContentType × ℚ :=
  let total_indicators := diagram_indicators p + handwriting_indicators p
  if total_indicators = 0 then (ContentType.uncertain, 0.5)
  else if diagram_confidence p ≥ 0.7 then (ContentType.diagram, diagram_confidence p)
  else if diagram_confidence p ≤ 0.3 then
    (ContentType.handwriting, 1 - diagram_confidence p)
  else (ContentType.handwriting, 0.6)

lemma size_block_nonneg (p : ClassifyProps) :
    0 ≤ (size_block p).1 ∧ 0 ≤ (size_block p).2 := by
  unfold size_block; split_ifs <;> norm_num

lemma regularity_block_nonneg (p : ClassifyProps) :
    0 ≤ (regularity_block p).1 ∧ 0 ≤ (regularity_block p).2 := by
  unfold regularity_block; split_ifs <;> norm_num

lemma straight_lines_block_nonneg (p : ClassifyProps) :
    0 ≤ (straight_lines_block p).1 ∧ 0 ≤ (straight_lines_block p).2 := by
  unfold straight_lines_block; split_ifs <;> norm_num

lemma perfect_curves_block_nonneg (p : ClassifyProps) :
    0 ≤ (perfect_curves_block p).1 ∧ 0 ≤ (perfect_curves_block p).2 := by
  unfold perfect_curves_block; split_ifs <;> norm_num

lemma aspect_block_nonneg (p : ClassifyProps) :
    0 ≤ (aspect_block p).1 ∧ 0 ≤ (aspect_block p).2 := by
  unfold aspect_block; split_ifs <;> norm_num

lemma solidity_block_nonneg (p : ClassifyProps) :
    0 ≤ (solidity_block p).1 ∧ 0 ≤ (solidity_block p).2 := by
  unfold solidity_block; split_ifs <;> norm_num

lemma circularity_block_nonneg (p : ClassifyProps) :
    0 ≤ (circularity_block p).1 ∧ 0 ≤ (circularity_block p).2 := by
  unfold circularity_block; split_ifs <;> norm_num

lemma extent_block_nonneg (p : ClassifyProps) :
    0 ≤ (extent_block p).1 ∧ 0 ≤ (extent_block p).2 := by
  unfold extent_block; split_ifs <;> norm_num

lemma complex_block_nonneg (p : ClassifyProps) :
    0 ≤ (complex_block p).1 ∧ 0 ≤ (complex_block p).2 := by
  unfold complex_block; split_ifs <;> norm_num

lemma simple_line_block_nonneg (p : ClassifyProps) :
    0 ≤ (simple_line_block p).1 ∧ 0 ≤ (simple_line_block p).2 := by
  unfold simple_line_block; split_ifs <;> norm_num

lemma medium_boost_block_nonneg (p : ClassifyProps) :
    0 ≤ (medium_boost_block p).1 ∧ 0 ≤ (medium_boost_block p).2 := by
  unfold medium_boost_block; split_ifs <;> norm_num

/-- Every check only ever adds a nonnegative weight to the diagram
accumulator. -/
lemma diagram_indicators_nonneg (p : ClassifyProps) : 0 ≤ diagram_indicators p := by
  unfold diagram_indicators
  have h1 := (size_block_nonneg p).1
  have h2 := (regularity_block_nonneg p).1
  have h3 := (straight_lines_block_nonneg p).1
  have h4 := (perfect_curves_block_nonneg p).1
  have h5 := (aspect_block_nonneg p).1
  have h6 := (solidity_block_nonneg p).1
  have h7 := (circularity_block_nonneg p).1
  have h8 := (extent_block_nonneg p).1
  have h9 := (complex_block_nonneg p).1
  have h10 := (simple_line_block_nonneg p).1
  have h11 := (medium_boost_block_nonneg p).1
  linarith

/-- Every check only ever adds a nonnegative weight to the handwriting
accumulator. -/
lemma handwriting_indicators_nonneg (p : ClassifyProps) :
    0 ≤ handwriting_indicators p := by
  unfold handwriting_indicators
  have h1 := (size_block_nonneg p).2
  have h2 := (regularity_block_nonneg p).2
  have h3 := (straight_lines_block_nonneg p).2
  have h4 := (perfect_curves_block_nonneg p).2
  have h5 := (aspect_block_nonneg p).2
  have h6 := (solidity_block_nonneg p).2
  have h7 := (circularity_block_nonneg p).2
  have h8 := (extent_block_nonneg p).2
  have h9 := (complex_block_nonneg p).2
  have h10 := (simple_line_block_nonneg p).2
  have h11 := (medium_boost_block_nonneg p).2
  linarith

/-- The accumulator total vanishes exactly when both accumulators do. -/
lemma total_eq_zero_iff (p : ClassifyProps) :
    diagram_indicators p + handwriting_indicators p = 0 ↔
      diagram_indicators p = 0 ∧ handwriting_indicators p = 0 := by
  have hd := diagram_indicators_nonneg p
  have hh := handwriting_indicators_nonneg p
  constructor
  · intro h; constructor <;> linarith
  · intro h; rw [h.1, h.2]; norm_num

/-- C1: classify_contour is total and deterministic; the returned confidence
lies in [0,1]; when both accumulators are zero the result is
(uncertain, 0.5); otherwise, with conf = diagram_score / (diagram_score +
handwriting_score), conf ≥ 0.7 yields (diagram, conf), conf ≤ 0.3 yields
(handwriting, 1 − conf), and the ambiguous band 0.3 < conf < 0.7 always
yields (handwriting, 0.6). -/
theorem classify_contour_decision_rule (p : ClassifyProps) :
    (0 ≤ (classify_contour p).2 ∧ (classify_contour p).2 ≤ 1)
    ∧ (diagram_indicators p = 0 ∧ handwriting_indicators p = 0 →
        classify_contour p = (ContentType.uncertain, 0.5))
    ∧ (¬(diagram_indicators p = 0 ∧ handwriting_indicators p = 0) →
        (diagram_confidence p ≥ 0.7 →
          classify_contour p = (ContentType.diagram, diagram_confidence p))
        ∧ (diagram_confidence p ≤ 0.3 →
          classify_contour p = (ContentType.handwriting, 1 - diagram_confidence p))
        ∧ (0.3 < diagram_confidence p ∧ diagram_confidence p < 0.7 →
          classify_contour p = (ContentType.handwriting, 0.6))) := by
  have hd := diagram_indicators_nonneg p
  have hh := handwriting_indicators_nonneg p
  by_cases h0 : diagram_indicators p + handwriting_indicators p = 0
  · refine ⟨?_, fun _ => ?_, fun hne => absurd ((total_eq_zero_iff p).mp h0) hne⟩
    · simp only [classify_contour, if_pos h0]; norm_num
    · simp only [classify_contour, if_pos h0]
  · have htot : 0 < diagram_indicators p + handwriting_indicators p := by
      rcases lt_or_eq_of_le (by linarith : (0:ℚ) ≤ diagram_indicators p + handwriting_indicators p) with h | h
      · exact h
      · exact absurd h.symm h0
    have hconf0 : 0 ≤ diagram_confidence p := by
      unfold diagram_confidence; positivity
    have hconf1 : diagram_confidence p ≤ 1 := by
      unfold diagram_confidence
      rw [div_le_one htot]; linarith
    refine ⟨?_, fun hz => absurd ((total_eq_zero_iff p).mpr hz) h0, fun _ => ⟨?_, ?_, ?_⟩⟩
    · simp only [classify_contour, if_neg h0]
      split_ifs with h1 h2
      · exact ⟨hconf0, hconf1⟩
      · constructor
        · show (0:ℚ) ≤ 1 - diagram_confidence p
          linarith
        · show (1:ℚ) - diagram_confidence p ≤ 1
          linarith
      · constructor
        · show (0:ℚ) ≤ 0.6
          norm_num
        · show (0.6:ℚ) ≤ 1
          norm_num
    · intro hge
      simp only [classify_contour, if_neg h0, if_pos hge]
    · intro hle
      have hn7 : ¬ diagram_confidence p ≥ 0.7 := by linarith
      simp only [classify_contour, if_neg h0, if_neg hn7, if_pos hle]
    · intro ⟨hgt, hlt⟩
      have hn7 : ¬ diagram_confidence p ≥ 0.7 := by linarith
      have hn3 : ¬ diagram_confidence p ≤ 0.3 := by linarith
      simp only [classify_contour, if_neg h0, if_neg hn7, if_neg hn3]

/-- Concrete properties record: all features zero/false.  The handwriting
accumulator receives 0.5 + 1 + 2 + 1 + 1 + 1 = 6.5, the diagram accumulator
stays at 0, so conf = 0 ≤ 0.3 and the result is (handwriting, 1). -/
def propsAllZero : ClassifyProps :=
  { area := 0, aspect_ratio := 0, solidity := 0, circularity := 0, extent := 0,
    straightness := 0, regularity_score := 0, has_straight_lines := false,
    has_perfect_curves := false, corner_count := 0 }

lemma diagram_indicators_propsAllZero : diagram_indicators propsAllZero = 0 := by
  norm_num [diagram_indicators, size_block, regularity_block, straight_lines_block,
    perfect_curves_block, aspect_block, solidity_block, circularity_block, extent_block,
    complex_block, simple_line_block, medium_boost_block, is_complex_shape,
    is_simple_line, propsAllZero]

lemma handwriting_indicators_propsAllZero :
    handwriting_indicators propsAllZero = 6.5 := by
  norm_num [handwriting_indicators, size_block, regularity_block, straight_lines_block,
    perfect_curves_block, aspect_block, solidity_block, circularity_block, extent_block,
    complex_block, simple_line_block, medium_boost_block, is_complex_shape,
    is_simple_line, propsAllZero]

lemma diagram_confidence_propsAllZero : diagram_confidence propsAllZero = 0 := by
  rw [diagram_confidence, diagram_indicators_propsAllZero,
    handwriting_indicators_propsAllZero]
  norm_num

theorem classify_contour_decision_rule_witness :
    ¬(diagram_indicators propsAllZero = 0 ∧ handwriting_indicators propsAllZero = 0)
    ∧ diagram_confidence propsAllZero ≤ 0.3
    ∧ classify_contour propsAllZero =
        (ContentType.handwriting, 1 - diagram_confidence propsAllZero) := by
  have hne : ¬(diagram_indicators propsAllZero = 0 ∧
      handwriting_indicators propsAllZero = 0) := by
    rw [handwriting_indicators_propsAllZero]
    norm_num
  have hle : diagram_confidence propsAllZero ≤ 0.3 := by
    rw [diagram_confidence_propsAllZero]; norm_num
  exact ⟨hne, hle, ((classify_contour_decision_rule propsAllZero).2.2 hne).2.1 hle⟩

/-- Concrete properties record with aspect ratio 9: elongated enough for the
code's simple-line test (> 8) but not for the spec's extreme-elongation
definition (> 10). -/
def propsRatioNine : ClassifyProps :=
  { area := 2000, aspect_ratio := 9, solidity := 0, circularity := 0,
    extent := 0.5, straightness := 0.8, regularity_score := 0,
    has_straight_lines := false, has_perfect_curves := false, corner_count := 4 }

/-- C4 counterexample: at aspect ratio 9 (straightness 0.8, corner count 4)
the code adds the +3 handwriting signal, yet the shape is not extremely
elongated in the claimed sense (aspect ratio neither > 10 nor < 0.1), so the
"exactly when" of the claim fails. -/
theorem simple_line_signal_counterexample :
    (simple_line_block propsRatioNine).2 = 3
    ∧ ¬((propsRatioNine.aspect_ratio > 10 ∨ propsRatioNine.aspect_ratio < 0.1)
        ∧ propsRatioNine.straightness > 0.7 ∧ propsRatioNine.corner_count ≤ 4) := by
  constructor
  · norm_num [simple_line_block, is_simple_line, propsRatioNine]
  · intro ⟨h, _, _⟩
    rcases h with h | h <;> norm_num [propsRatioNine] at h

/-- C4 (amended): the composite simple-line test adds the strong handwriting
signal (+3) exactly when aspect ratio > 8 or < 0.125 (the code's elongation
thresholds), straightness > 0.7, and corner_count ≤ 4. -/
theorem simple_line_signal_iff (p : ClassifyProps) :
    (simple_line_block p).2 = 3 ↔
      ((p.aspect_ratio > 8 ∨ p.aspect_ratio < 0.125)
        ∧ p.straightness > 0.7 ∧ p.corner_count ≤ 4) := by
  unfold simple_line_block is_simple_line
  by_cases hb : (p.aspect_ratio > 8 ∨ p.aspect_ratio < 0.125) ∧
      p.straightness > 0.7 ∧ p.corner_count ≤ 4
  · rw [if_pos (by simpa using hb)]
    simpa using hb
  · rw [if_neg (by simpa using hb)]
    constructor
    · intro h; norm_num at h
    · intro h; exact absurd h hb

/-- A raw contour: the ordered list of 2-D pixel coordinates wrapped in the
numpy array that OpenCV produces. -/
abbrev RawContour := List (ℚ × ℚ)

/-- External geometric primitives called by the classifier (OpenCV and the
square root underlying `np.linalg.norm` / `np.std`).  They are inputs of the
shallow embedding, not translated code.  `arcLength c closed` mirrors
`cv2.arcLength(c, closed)`; `fitEllipse` returns `none` when
`cv2.fitEllipse` raises (the `except` path of `_has_perfect_curves`). -/
structure Geom where
  contourArea : RawContour → ℚ
  arcLength : RawContour → Bool → ℚ
  boundingRect : RawContour → ℚ × ℚ × ℚ × ℚ
  convexHull : RawContour → RawContour
  approxPolyDP : RawContour → ℚ → RawContour
  minEnclosingCircle : RawContour → (ℚ × ℚ) × ℚ
  fitEllipse : RawContour → Option ((ℚ × ℚ) × (ℚ × ℚ) × ℚ)
  sqrtQ : ℚ → ℚ

/-- The value of `np.pi` (modelled exactly as the rational printed value of
the double; the embedding treats floats as exact rationals). -/
def npPi : ℚ := 3.141592653589793

/-- Python `int(...)` truncates toward zero. -/
def intTrunc (q : ℚ) : ℤ := if 0 ≤ q then ⌊q⌋ else -⌊-q⌋

/-- The full properties dictionary built by `analyze_stroke_properties`.
`_default_properties` omits the keys `rectangularity`, `circularity_fit` and
`triangularity` that the non-degenerate path adds, hence those three fields
are `Option ℚ` with `none` meaning "key absent". -/
structure AnalyzeProps where
  area : ℚ
  perimeter : ℚ
  aspect_ratio : ℚ
  solidity : ℚ
  circularity : ℚ
  extent : ℚ
  bbox : ℚ × ℚ × ℚ × ℚ
  straightness : ℚ
  curvature_variation : ℚ
  stroke_width_variation : ℚ
  corner_count : Nat
  line_segments : Nat
  curve_segments : Nat
  has_straight_lines : Bool
  has_perfect_curves : Bool
  has_corners : Bool
  regularity_score : ℚ
  rectangularity : Option ℚ
  circularity_fit : Option ℚ
  triangularity : Option ℚ
deriving DecidableEq, Repr

/-- Translation of `_default_properties` (classifier.py lines 82-91). -/
def default_properties : AnalyzeProps :=
  { area := 0, perimeter := 0, aspect_ratio := 0, solidity := 0,
    circularity := 0, extent := 0, bbox := (0, 0, 0, 0), straightness := 0,
    curvature_variation := 0, stroke_width_variation := 0, corner_count := 0,
    line_segments := 0, curve_segments := 0, has_straight_lines := false,
    has_perfect_curves := false, has_corners := false, regularity_score := 0,
    rectangularity := none, circularity_fit := none, triangularity := none }

/-- Indices produced by `np.linspace(0, len-1, num, dtype=int)`:
`i * (len-1) / (num-1)` truncated to integers (Nat division floors, which
matches truncation of these nonnegative values). -/
def sampleIndices (len num : Nat) : List Nat :=
  (List.range num).map (fun i => i * (len - 1) / (num - 1))

/-- Translation of `np.std` over a list, with the square root taken by the external
primitive; 0 on the empty list (the caller guards that case). -/
def stdQ (g : Geom) (l : List ℚ) : ℚ :=
  if l.isEmpty then 0
  else
    let mean := l.sum / (l.length : ℚ)
    g.sqrtQ (((l.map (fun x => (x - mean) ^ 2)).sum) / (l.length : ℚ))

/-- Translation of `_calculate_curvature_variation` (classifier.py lines 181-209). -/
def calculate_curvature_variation (g : Geom) (contour : RawContour) : ℚ :=
  if contour.length < 5 then 0
  else
    let num_points := min 20 contour.length
    let idxs := sampleIndices contour.length num_points
    let points := idxs.map (fun i => contour.getD i (0, 0))
    let curvatures := (List.range points.length).filterMap (fun i =>
      if 1 ≤ i ∧ i + 1 < points.length then
        let p1 := points.getD (i - 1) (0, 0)
        let p2 := points.getD i (0, 0)
        let p3 := points.getD (i + 1) (0, 0)
        let v1 := (p2.1 - p1.1, p2.2 - p1.2)
        let v2 := (p3.1 - p2.1, p3.2 - p2.2)
        let cross := v1.1 * v2.2 - v1.2 * v2.1
        let norm_v1 := g.sqrtQ (v1.1 ^ 2 + v1.2 ^ 2)
        let norm_v2 := g.sqrtQ (v2.1 ^ 2 + v2.2 ^ 2)
        if norm_v1 > 0 ∧ norm_v2 > 0 then some (|cross| / (norm_v1 * norm_v2))
        else none
      else none)
    if curvatures.isEmpty then 0 else stdQ g curvatures

/-- Translation of `_estimate_stroke_width_variation` (classifier.py lines 211-228). -/
def estimate_stroke_width_variation (g : Geom) (contour : RawContour) : ℚ :=
  let r := g.boundingRect contour
  let w := r.2.2.1
  let h := r.2.2.2
  let contour_area := g.contourArea contour
  let perimeter := g.arcLength contour true
  if perimeter > 0 then
    let width_estimate := contour_area / perimeter
    let expected_width := max 1 (min w h / 20)
    let variation := |width_estimate - expected_width| / expected_width
    min variation 2.0
  else 0

/-- Translation of `_analyze_stroke_characteristics` (classifier.py lines 93-119); returns
(straightness, curvature_variation, stroke_width_variation). -/
def analyze_stroke_characteristics (g : Geom) (contour : RawContour) :
    ℚ × ℚ × ℚ :=
  let epsilon := 0.02 * g.arcLength contour true
  let approx := g.approxPolyDP contour epsilon
  let straightness :=
    if approx.length ≥ 2 then
      let s := approx.getD 0 (0, 0)
      let e := approx.getD (approx.length - 1) (0, 0)
      let direct_distance := g.sqrtQ ((e.1 - s.1) ^ 2 + (e.2 - s.2) ^ 2)
      let contour_length := g.arcLength contour false
      if contour_length > 0 then direct_distance / contour_length else 0
    else 0
  (straightness, calculate_curvature_variation g contour,
    estimate_stroke_width_variation g contour)

/-- Translation of `_has_straight_lines` (classifier.py lines 230-236). -/
def has_straight_lines_check (approx : RawContour) : Bool :=
  if approx.length < 2 then false else decide (approx.length ≤ 8)

/-- Translation of `_has_perfect_curves` (classifier.py lines 238-259). -/
def has_perfect_curves_check (g : Geom) (contour : RawContour) : Bool :=
  if contour.length ≥ 5 then
    match g.fitEllipse contour with
    | some ellipse =>
      let axes0 := intTrunc (ellipse.2.1.1 / 2)
      let axes1 := intTrunc (ellipse.2.1.2 / 2)
      let contour_area := g.contourArea contour
      let ellipse_area := npPi * (axes0 : ℚ) * (axes1 : ℚ)
      if ellipse_area > 0 then
        decide (0.7 ≤ contour_area / ellipse_area ∧
          contour_area / ellipse_area ≤ 1.3)
      else false
    | none => false
  else false

/-- Translation of `_calculate_regularity_score` (classifier.py lines 261-291). -/
def calculate_regularity_score (g : Geom) (contour approx : RawContour) : ℚ :=
  let scoresA : List ℚ :=
    if contour.length > 0 then
      [1 - (approx.length : ℚ) / (contour.length : ℚ)]
    else []
  let hull := g.convexHull contour
  let hull_area := g.contourArea hull
  let contour_area := g.contourArea contour
  let scoresB : List ℚ := if hull_area > 0 then [contour_area / hull_area] else []
  let r := g.boundingRect contour
  let w := r.2.2.1
  let h := r.2.2.2
  let scoresC : List ℚ :=
    if h > 0 then
      let aspect_ratio := w / h
      [if 0.8 ≤ aspect_ratio ∧ aspect_ratio ≤ 1.2 then (1.0 : ℚ)
       else if 0.4 ≤ aspect_ratio ∧ aspect_ratio ≤ 2.5 then 0.7 else 0.3]
    else []
  let scores := scoresA ++ scoresB ++ scoresC
  if scores.isEmpty then 0 else scores.sum / (scores.length : ℚ)

/-- The dictionary returned by `_analyze_shape_regularity`. -/
structure ShapeRegularityProps where
  corner_count : Nat
  line_segments : Nat
  curve_segments : Nat
  has_straight_lines : Bool
  has_perfect_curves : Bool
  has_corners : Bool
  regularity_score : ℚ
deriving DecidableEq, Repr

/-- Translation of `_analyze_shape_regularity` (classifier.py lines 121-156). -/
def analyze_shape_regularity (g : Geom) (contour : RawContour) :
    ShapeRegularityProps :=
  let epsilon := 0.02 * g.arcLength contour true
  let approx := g.approxPolyDP contour epsilon
  let corner_count := approx.length
  let segs : Nat × Nat :=
    if corner_count ≥ 3 then
      (if corner_count ≤ 8 then (corner_count, 0) else (0, corner_count))
    else (0, 0)
  { corner_count := corner_count,
    line_segments := segs.1,
    curve_segments := segs.2,
    has_straight_lines := has_straight_lines_check approx,
    has_perfect_curves := has_perfect_curves_check g contour,
    has_corners := decide (3 ≤ corner_count ∧ corner_count ≤ 12),
    regularity_score := calculate_regularity_score g contour approx }

/-- Translation of `_analyze_geometric_features` (classifier.py lines 158-179); returns
(rectangularity, circularity_fit, triangularity). -/
def analyze_geometric_features (g : Geom) (contour : RawContour) : ℚ × ℚ × ℚ :=
  let r := g.boundingRect contour
  let w := r.2.2.1
  let h := r.2.2.2
  let rect_area := w * h
  let contour_area := g.contourArea contour
  let rectangularity := if rect_area > 0 then contour_area / rect_area else 0
  let radius := (g.minEnclosingCircle contour).2
  let circle_area := npPi * radius * radius
  let circularity_fit :=
    if circle_area > 0 then contour_area / circle_area else 0
  let triangle_area := 0.5 * w * h
  let triangularity :=
    if triangle_area > 0 then contour_area / triangle_area else 0
  (rectangularity, circularity_fit, triangularity)

/-- Translation of `analyze_stroke_properties` (classifier.py lines 35-80). -/
def analyze_stroke_properties (g : Geom) (contour : RawContour) : AnalyzeProps :=
  let area := g.contourArea contour
  let perimeter := g.arcLength contour true
  if perimeter = 0 then default_properties
  else
    let r := g.boundingRect contour
    let x := r.1
    let y := r.2.1
    let w := r.2.2.1
    let h := r.2.2.2
    let aspect_ratio := if h > 0 then w / h else 0
    let hull := g.convexHull contour
    let hull_area := g.contourArea hull
    let solidity := if hull_area > 0 then area / hull_area else 0
    let circularity := 4 * npPi * area / (perimeter * perimeter)
    let rect_area := w * h
    let extent := if rect_area > 0 then area / rect_area else 0
    let stroke := analyze_stroke_characteristics g contour
    let sr := analyze_shape_regularity g contour
    let geo := analyze_geometric_features g contour
    { area := area, perimeter := perimeter, aspect_ratio := aspect_ratio,
      solidity := solidity, circularity := circularity, extent := extent,
      bbox := (x, y, w, h), straightness := stroke.1,
      curvature_variation := stroke.2.1, stroke_width_variation := stroke.2.2,
      corner_count := sr.corner_count, line_segments := sr.line_segments,
      curve_segments := sr.curve_segments,
      has_straight_lines := sr.has_straight_lines,
      has_perfect_curves := sr.has_perfect_curves,
      has_corners := sr.has_corners, regularity_score := sr.regularity_score,
      rectangularity := some geo.1, circularity_fit := some geo.2.1,
      triangularity := some geo.2.2 }

/-- C7 (amended): analyze_stroke_properties returns the all-zero/false
default record exactly on the zero-perimeter guard; a contour with fewer
than 5 points but nonzero perimeter gets a fully computed record in which
only the sub-features guarded by the point count default (curvature
variation 0, no perfect curves).  The embedding is a total function, so no
error is raised on such input. -/
theorem analyze_stroke_properties_degenerate (g : Geom) (contour : RawContour) :
    (g.arcLength contour true = 0 →
      analyze_stroke_properties g contour = default_properties)
    ∧ (contour.length < 5 →
      (analyze_stroke_properties g contour).curvature_variation = 0
      ∧ (analyze_stroke_properties g contour).has_perfect_curves = false) := by
  have hdefault : g.arcLength contour true = 0 →
      analyze_stroke_properties g contour = default_properties := by
    intro h
    simp only [analyze_stroke_properties]
    rw [if_pos h]
  refine ⟨hdefault, fun hlen => ?_⟩
  rcases eq_or_ne (g.arcLength contour true) 0 with hp | hp
  · rw [hdefault hp]
    exact ⟨rfl, rfl⟩
  · have hcv : (analyze_stroke_properties g contour).curvature_variation =
        calculate_curvature_variation g contour := by
      simp only [analyze_stroke_properties]
      rw [if_neg hp]
      rfl
    have hpc : (analyze_stroke_properties g contour).has_perfect_curves =
        has_perfect_curves_check g contour := by
      simp only [analyze_stroke_properties]
      rw [if_neg hp]
      rfl
    rw [hcv, hpc]
    constructor
    · unfold calculate_curvature_variation
      rw [if_pos hlen]
    · unfold has_perfect_curves_check
      rw [if_neg (by omega)]

/-- Trivial model of the external primitives: every measurement is zero. -/
def geomZero : Geom :=
  { contourArea := fun _ => 0, arcLength := fun _ _ => 0,
    boundingRect := fun _ => (0, 0, 0, 0), convexHull := fun c => c,
    approxPolyDP := fun c _ => c, minEnclosingCircle := fun _ => ((0, 0), 0),
    fitEllipse := fun _ => none, sqrtQ := fun _ => 0 }

theorem analyze_stroke_properties_degenerate_witness :
    geomZero.arcLength [] true = 0 ∧ ([] : RawContour).length < 5
    ∧ analyze_stroke_properties geomZero [] = default_properties
    ∧ (analyze_stroke_properties geomZero []).curvature_variation = 0
    ∧ (analyze_stroke_properties geomZero []).has_perfect_curves = false :=
  ⟨rfl, by decide,
   (analyze_stroke_properties_degenerate geomZero []).1 rfl,
   ((analyze_stroke_properties_degenerate geomZero []).2 (by decide)).1,
   ((analyze_stroke_properties_degenerate geomZero []).2 (by decide)).2⟩

/-- A 3-point triangle contour: fewer than 5 points but nonzero perimeter. -/
def triContour : RawContour := [(0, 0), (10, 0), (0, 10)]

/-- Model of the external primitives on the triangle: its shoelace area is
exactly 50, `cv2.boundingRect` gives (0,0,11,11), and its perimeter is
nonzero (the real value is 20 + √200; any nonzero value exhibits the same
control flow, so a round 35 is used).  `fitEllipse` raises on short input,
modelled by `none`; the external square root never matters below and is set
to 0. -/
def geomTri : Geom :=
  { contourArea := fun _ => 50,
    arcLength := fun _ closed => if closed then 35 else 25,
    boundingRect := fun _ => (0, 0, 11, 11), convexHull := fun c => c,
    approxPolyDP := fun c _ => c, minEnclosingCircle := fun _ => ((5, 5), 8),
    fitEllipse := fun _ => none, sqrtQ := fun _ => 0 }

/-- C7 counterexample: the triangle has fewer than 5 points and nonzero
perimeter, and analyze_stroke_properties does NOT return the default record
on it (its area field is the measured 50): the only degenerate-input early
return in the code is the zero-perimeter check, not the point count. -/
theorem analyze_short_contour_counterexample :
    triContour.length < 5 ∧ geomTri.arcLength triContour true ≠ 0
    ∧ (analyze_stroke_properties geomTri triContour).area = 50
    ∧ analyze_stroke_properties geomTri triContour ≠ default_properties := by
  have h35 : geomTri.arcLength triContour true ≠ 0 := by norm_num [geomTri]
  have harea : (analyze_stroke_properties geomTri triContour).area = 50 := by
    simp only [analyze_stroke_properties]
    rw [if_neg h35]
    rfl
  refine ⟨by decide, h35, harea, ?_⟩
  intro h
  rw [h] at harea
  norm_num [default_properties] at harea

/-! ## Clusterer (`src/core/clusterer.py`)

Bounding boxes, page dimensions and the configuration thresholds are Python
ints, so they are embedded as `ℤ`.  The two float computations on these
integers (`math.sqrt` in `calculate_distance` and `0.75 * diagram_area` in
`check_text_intersection`) are exact and are carried out in equivalent
integer form, noted at the definitions. -/

/-- An axis-aligned bounding box (x, y, w, h) in integer pixel coordinates. -/
structure Box where
  x : ℤ
  y : ℤ
  w : ℤ
  h : ℤ
deriving DecidableEq, Repr

def box0 : Box := ⟨0, 0, 0, 0⟩

/-- A contour as carried by the clusterer.  The clusterer never inspects the
point array: it only stores it and measures `cv2.contourArea` of it, so the
embedding keeps an identifying tag together with that external area
measurement (an input datum). -/
structure Contour where
  tag : Nat
  area : ℤ
deriving DecidableEq, Repr

def contour0 : Contour := ⟨0, 0⟩

/-- One element of the input lists of cluster_diagrams: a dict holding the
contour, its properties bbox, and the classification confidence. -/
structure ShapeInfo where
  contour : Contour
  bbox : Box
  confidence : ℚ
deriving Repr

def shape0 : ShapeInfo := ⟨contour0, box0, 0⟩

/-- Translation of `DiagramCluster` (clusterer.py lines 21-30). -/
structure DiagramCluster where
  id : Nat
  contour_ids : List Nat
  contours : List Contour
  bounding_box : Box
  centroid : ℚ × ℚ
  total_area : ℤ
  confidence : ℚ
deriving Repr

def cluster0 : DiagramCluster := ⟨0, [], [], box0, (0, 0), 0, 0⟩

inductive SortingMethod where
  | area
  | readingOrder
deriving DecidableEq, Repr

/-- Configuration values read by the clusterer.  `clusteringProximity`,
`padding` and `maxDiagrams` mirror CLUSTERING_PROXIMITY, PADDING and
MAX_DIAGRAMS of `utils/config.py` (defaults 150, 10, 10).

Modelled from the spec: the `DIAGRAM_SORTING_METHOD` attribute read by
`sort_clusters` (and by test_reading_order.py) is absent from the Config
class in `src/utils/config.py`; the spec's configuration bundle lists
`sorting_method ∈ {area, reading_order}` with area-descending the
default/back-compatible policy, so the embedding carries it as an explicit
field. -/
structure Config where
  clusteringProximity : ℤ
  padding : ℤ
  maxDiagrams : Nat
  sortingMethod : SortingMethod

def defaultConfig : Config := ⟨150, 10, 10, SortingMethod.area⟩

/-- Square of `calculate_distance` (clusterer.py lines 40-65): 0 when the
rectangles overlap, else dx² + dy². -/
def calculate_distance_sq (bbox1 bbox2 : Box) : ℤ :=
  let left1 := bbox1.x
  let right1 := bbox1.x + bbox1.w
  let top1 := bbox1.y
  let bottom1 := bbox1.y + bbox1.h
  let left2 := bbox2.x
  let right2 := bbox2.x + bbox2.w
  let top2 := bbox2.y
  let bottom2 := bbox2.y + bbox2.h
  if right1 ≥ left2 ∧ left1 ≤ right2 ∧ bottom1 ≥ top2 ∧ top1 ≤ bottom2 then 0
  else
    let dx := max 0 (max (left1 - right2) (left2 - right1))
    let dy := max 0 (max (top1 - bottom2) (top2 - bottom1))
    dx * dx + dy * dy

/-- Translation of `should_cluster` (clusterer.py lines 67-71) compares
`sqrt(dx² + dy²) ≤ CLUSTERING_PROXIMITY`.  Since the squared distance is
nonnegative and `sqrt` is monotone, this holds iff the proximity is
nonnegative and the squared distance is at most its square — the exact
integer form used here. -/
def should_cluster (cfg : Config) (bbox1 bbox2 : Box) : Bool :=
  decide (0 ≤ cfg.clusteringProximity ∧
    calculate_distance_sq bbox1 bbox2 ≤ cfg.clusteringProximity ^ 2)

/-- Translation of `merge_bounding_boxes` (clusterer.py lines 73-83). -/
def merge_bounding_boxes (bboxes : List Box) : Box :=
  match bboxes with
  | [] => box0
  | b :: rest =>
    let min_x := rest.foldl (fun m bb => min m bb.x) b.x
    let min_y := rest.foldl (fun m bb => min m bb.y) b.y
    let max_x := rest.foldl (fun m bb => max m (bb.x + bb.w)) (b.x + b.w)
    let max_y := rest.foldl (fun m bb => max m (bb.y + bb.h)) (b.y + b.h)
    ⟨min_x, min_y, max_x - min_x, max_y - min_y⟩

/-- Translation of `add_padding` (clusterer.py lines 85-97); `image_shape` is
(height, width). -/
def add_padding (cfg : Config) (bbox : Box) (imageH imageW : ℤ) : Box :=
  let padding := cfg.padding
  let new_x := max 0 (bbox.x - padding)
  let new_y := max 0 (bbox.y - padding)
  let new_w := min (imageW - new_x) (bbox.w + 2 * padding)
  let new_h := min (imageH - new_y) (bbox.h + 2 * padding)
  ⟨new_x, new_y, new_w, new_h⟩

/-- Overlap area computed inside `check_text_intersection`
(clusterer.py lines 112-114). -/
def overlap_area (d hw : Box) : ℤ :=
  let overlap_x := max 0 (min (d.x + d.w) (hw.x + hw.w) - max d.x hw.x)
  let overlap_y := max 0 (min (d.y + d.h) (hw.y + hw.h) - max d.y hw.y)
  overlap_x * overlap_y

/-- Translation of `check_text_intersection` (clusterer.py lines 99-124).  The float
comparison `overlap_area > 0.75 * diagram_area` is exact on these integers
and is carried out as `4 * overlap_area > 3 * diagram_area`. -/
def check_text_intersection (diagram_bbox : Box)
    (handwriting_bboxes : List Box) : Bool :=
  handwriting_bboxes.any (fun hb =>
    let buffer : ℤ := 5
    if diagram_bbox.x < hb.x + hb.w + buffer ∧
       diagram_bbox.x + diagram_bbox.w > hb.x - buffer ∧
       diagram_bbox.y < hb.y + hb.h + buffer ∧
       diagram_bbox.y + diagram_bbox.h > hb.y - buffer then
      decide (4 * overlap_area diagram_bbox hb >
        3 * (diagram_bbox.w * diagram_bbox.h))
    else false)

/-- Translation of `overlaps_or_near`, the inner function of `_boxes_are_connected_by`
(clusterer.py lines 138-146), with its 70-pixel threshold. -/
def overlaps_or_near (b1 bc : Box) : Bool :=
  let threshold : ℤ := 70
  decide (bc.x < b1.x + b1.w + threshold ∧ bc.x + bc.w > b1.x - threshold ∧
    bc.y < b1.y + b1.h + threshold ∧ bc.y + bc.h > b1.y - threshold)

/-- Translation of `_boxes_are_connected_by` (clusterer.py lines 126-166). -/
def boxes_are_connected_by (bbox1 bbox2 connector_bbox : Box) : Bool :=
  let threshold : ℤ := 70
  if overlaps_or_near bbox1 connector_bbox &&
     overlaps_or_near bbox2 connector_bbox then
    let right1 := bbox1.x + bbox1.w
    let right2 := bbox2.x + bbox2.w
    let leftc := connector_bbox.x
    let rightc := connector_bbox.x + connector_bbox.w
    decide ((leftc ≤ right1 + threshold ∧ rightc ≥ bbox2.x - threshold) ∨
      (leftc ≤ right2 + threshold ∧ rightc ≥ bbox1.x - threshold))
  else false

/-- All pairs (i, j) with i < j < n, in the order of the nested loops
`for i in range(n): for j in range(i+1, n)`. -/
def allPairs (n : Nat) : List (Nat × Nat) :=
  (List.range n).flatMap (fun i =>
    ((List.range n).filter (fun j => i < j)).map (fun j => (i, j)))

/-- Index of the first list element satisfying p (the `for ... break` scan
over `enumerate(connector_bboxes)` at clusterer.py lines 213-220). -/
def find_first_idx {α : Type} (p : α → Bool) : List α → Option Nat
  | [] => none
  | a :: as => if p a then some 0 else (find_first_idx p as).map (· + 1)

/-- The `connected_by_connector` list built by cluster_diagrams
(clusterer.py lines 208-220): for each pair (i, j), i < j, that is not
proximity-adjacent, the first connector whose box connects the two diagram
boxes, if any, recorded as (i, j, connector index).  (Adjacency entries set
by earlier connector matches concern other pairs only, so the `if not
adjacency[i][j]` test at line 212 sees exactly the proximity adjacency.) -/
def connected_by_connector (cfg : Config)
    (diagram_bboxes connector_bboxes : List Box) : List (Nat × Nat × Nat) :=
  (allPairs diagram_bboxes.length).filterMap (fun p =>
    if should_cluster cfg (diagram_bboxes.getD p.1 box0)
        (diagram_bboxes.getD p.2 box0) then none
    else
      match find_first_idx (fun cb =>
          boxes_are_connected_by (diagram_bboxes.getD p.1 box0)
            (diagram_bboxes.getD p.2 box0) cb) connector_bboxes with
      | some conn_idx => some (p.1, p.2, conn_idx)
      | none => none)

/-- The symmetric adjacency relation of cluster_diagrams (proximity edges,
lines 201-206, plus connector edges, lines 208-220).  The source evaluates
each test once for i < j and assigns both matrix entries, so the embedding
evaluates on (min i j, max i j). -/
def adjacency (cfg : Config) (diagram_bboxes : List Box)
    (connPairs : List (Nat × Nat × Nat)) (i j : Nat) : Bool :=
  let a := min i j
  let b := max i j
  decide (i < diagram_bboxes.length) && decide (j < diagram_bboxes.length) &&
  decide (i ≠ j) &&
  (should_cluster cfg (diagram_bboxes.getD a box0) (diagram_bboxes.getD b box0) ||
    connPairs.any (fun t => decide (t.1 = a) && decide (t.2.1 = b)))

/-- Unvisited neighbours pushed onto the DFS stack for `current`
(clusterer.py lines 241-244).  Python appends j = 0..n-1 in order and pops
from the end of the list, so the largest pushed j is popped first; with the
head of a Lean list as stack top this is the reversed filtered range. -/
def dfs_push (adj : Nat → Nat → Bool) (n : Nat) (visited : List Bool)
    (current : Nat) : List Nat :=
  ((List.range n).filter (fun j => adj current j && !(visited.getD j true))).reverse

/-- The DFS stack loop (clusterer.py lines 233-244), with explicit fuel;
each iteration consumes one unit and `dfs_fuel` below always suffices to
reach the empty stack. -/
def dfs_loop (adj : Nat → Nat → Bool) (n : Nat) :
    Nat → List Bool → List Nat → List Nat → List Bool × List Nat
  | 0, visited, _, acc => (visited, acc)
  | _ + 1, visited, [], acc => (visited, acc)
  | fuel + 1, visited, current :: rest, acc =>
    if visited.getD current true then dfs_loop adj n fuel visited rest acc
    else
      let visited' := visited.set current true
      dfs_loop adj n fuel visited'
        (dfs_push adj n visited' current ++ rest) (acc ++ [current])

def dfs_fuel (n : Nat) : Nat := (n + 1) * (n + 2)

/-- Connected-component extraction: the outer loop of cluster_diagrams
(lines 227-244), emitting one `cluster_contour_ids` list per unvisited
seed, in seed order. -/
def find_components (adj : Nat → Nat → Bool) (n : Nat) : List (List Nat) :=
  ((List.range n).foldl (fun st i =>
    if st.1.getD i true then st
    else
      let r := dfs_loop adj n (dfs_fuel n) st.1 [i] []
      (r.1, st.2 ++ [r.2]))
    (List.replicate n false, ([] : List (List Nat)))).2

/-- The connector indices bridging pairs inside one component
(`relevant_connector_indices`, clusterer.py lines 250-254).  Python
iterates this set of ints in unspecified order; the embedding uses
ascending order, which only affects the order of the appended connector
entries — every consumer (min/max envelope, sum, membership) is
order-insensitive. -/
def relevant_connectors (connPairs : List (Nat × Nat × Nat)) (connCount : Nat)
    (cluster_contour_ids : List Nat) : List Nat :=
  (List.range connCount).filter (fun conn_idx =>
    connPairs.any (fun t => decide (t.2.2 = conn_idx) &&
      decide (t.1 ∈ cluster_contour_ids) &&
      decide (t.2.1 ∈ cluster_contour_ids)))

/-- The contours of one candidate cluster: its diagram members plus the
bridging connectors (clusterer.py lines 247, 256-259). -/
def candidate_contours (diagram_contours connector_contours : List ShapeInfo)
    (connPairs : List (Nat × Nat × Nat))
    (cluster_contour_ids : List Nat) : List Contour :=
  cluster_contour_ids.map (fun idx => (diagram_contours.getD idx shape0).contour)
    ++ (relevant_connectors connPairs connector_contours.length
        cluster_contour_ids).map
      (fun k => (connector_contours.getD k shape0).contour)

/-- The member bounding boxes of one candidate cluster (clusterer.py lines
248, 256-259). -/
def candidate_member_bboxes (diagram_contours connector_contours : List ShapeInfo)
    (connPairs : List (Nat × Nat × Nat))
    (cluster_contour_ids : List Nat) : List Box :=
  cluster_contour_ids.map
      (fun idx => (diagram_contours.map (·.bbox)).getD idx box0)
    ++ (relevant_connectors connPairs connector_contours.length
        cluster_contour_ids).map
      (fun k => (connector_contours.getD k shape0).bbox)

/-- Construction of one candidate cluster from a connected component
(clusterer.py lines 246-296).  The running `cluster_id` is overwritten by
the dense reassignment at lines 315-317, so it is set to 0 here. -/
def build_candidate (cfg : Config)
    (diagram_contours connector_contours : List ShapeInfo)
    (connPairs : List (Nat × Nat × Nat)) (imageH imageW : ℤ)
    (cluster_contour_ids : List Nat) : DiagramCluster :=
  let cluster_contours := candidate_contours diagram_contours
    connector_contours connPairs cluster_contour_ids
  let cluster_bboxes := candidate_member_bboxes diagram_contours
    connector_contours connPairs cluster_contour_ids
  let merged_bbox := merge_bounding_boxes cluster_bboxes
  let padded_bbox := add_padding cfg merged_bbox imageH imageW
  let total_area := (cluster_contours.map (·.area)).sum
  let centroid : ℚ × ℚ :=
    ((padded_bbox.x : ℚ) + (padded_bbox.w : ℚ) / 2,
     (padded_bbox.y : ℚ) + (padded_bbox.h : ℚ) / 2)
  let confidences := cluster_contour_ids.map
    (fun idx => (diagram_contours.getD idx shape0).confidence)
  let avg_confidence := confidences.sum / (confidences.length : ℚ)
  { id := 0, contour_ids := cluster_contour_ids, contours := cluster_contours,
    bounding_box := padded_bbox, centroid := centroid,
    total_area := total_area, confidence := avg_confidence }

/-- Stable insertion into an already-processed list: x is placed before the
first element that does not strictly precede it. -/
def insert_sorted {α : Type} (lt : α → α → Bool) (x : α) : List α → List α
  | [] => [x]
  | y :: ys => if lt y x then y :: insert_sorted lt x ys else x :: y :: ys

/-- Stable sort, matching Python's stable `sorted` with strict comparator
`lt a b` = "a must come strictly before b". -/
def stable_sort {α : Type} (lt : α → α → Bool) (l : List α) : List α :=
  l.foldr (insert_sorted lt) []

/-- Row-membership test of sort_clusters_by_reading_order (clusterer.py
line 343): the source compares `abs(cluster_y - current_y) <=
row_threshold` with `row_threshold = avg_height * 0.5 = (Σ h) / n * 0.5`;
the embedding compares `2 * n * |cluster_y - current_y| ≤ Σ h`, exactly
equivalent for n > 0. -/
def row_band_le (n : Nat) (height_sum : ℤ) (cluster_y current_y : ℤ) : Bool :=
  decide (2 * (n : ℤ) * |cluster_y - current_y| ≤ height_sum)

/-- Left-to-right sort of one row (clusterer.py lines 347, 353). -/
def sort_by_x (row : List DiagramCluster) : List DiagramCluster :=
  stable_sort (fun a b => decide (a.bounding_box.x < b.bounding_box.x)) row

/-- One step of the row-bucketing loop (clusterer.py lines 341-349): state
is (closed rows, current row, current row's reference y). -/
def reading_step (n : Nat) (height_sum : ℤ)
    (st : List (List DiagramCluster) × List DiagramCluster × ℤ)
    (cl : DiagramCluster) :
    List (List DiagramCluster) × List DiagramCluster × ℤ :=
  if row_band_le n height_sum cl.bounding_box.y st.2.2 then
    (st.1, st.2.1 ++ [cl], st.2.2)
  else (st.1 ++ [sort_by_x st.2.1], [cl], cl.bounding_box.y)

/-- Closing the final row and flattening (clusterer.py lines 351-356). -/
def finish_rows (st : List (List DiagramCluster) × List DiagramCluster × ℤ) :
    List DiagramCluster :=
  (if st.2.1.isEmpty then st.1 else st.1 ++ [sort_by_x st.2.1]).flatten

/-- Translation of `sort_clusters_by_reading_order` (clusterer.py lines 324-356). -/
def sort_clusters_by_reading_order (clusters : List DiagramCluster) :
    List DiagramCluster :=
  if clusters.isEmpty then clusters
  else
    let n := clusters.length
    let height_sum := (clusters.map (·.bounding_box.h)).sum
    let sorted_by_y :=
      stable_sort (fun a b => decide (a.bounding_box.y < b.bounding_box.y)) clusters
    match sorted_by_y with
    | [] => []
    | c0 :: restY =>
      finish_rows (restY.foldl (reading_step n height_sum)
        ([], [c0], c0.bounding_box.y))

/-- Translation of `sort_clusters` (clusterer.py lines 358-363): reading order when
configured, else stable area-descending (Python `sorted(..., reverse=True)`
keeps ties in list order, as does this comparator). -/
def sort_clusters (cfg : Config) (clusters : List DiagramCluster) :
    List DiagramCluster :=
  match cfg.sortingMethod with
  | SortingMethod.readingOrder => sort_clusters_by_reading_order clusters
  | SortingMethod.area =>
    stable_sort (fun a b => decide (b.total_area < a.total_area)) clusters

/-- Dense id reassignment (clusterer.py lines 315-317). -/
def reassign_ids (clusters : List DiagramCluster) : List DiagramCluster :=
  clusters.enum.map (fun p => { p.2 with id := p.1 })

/-- The candidate clusters built by cluster_diagrams (clusterer.py lines
192-296): one per connected component, in component order. -/
def candidate_clusters (cfg : Config)
    (diagram_contours connector_contours : List ShapeInfo)
    (imageH imageW : ℤ) : List DiagramCluster :=
  let diagram_bboxes := diagram_contours.map (·.bbox)
  let connector_bboxes := connector_contours.map (·.bbox)
  let connPairs := connected_by_connector cfg diagram_bboxes connector_bboxes
  let comps := find_components (adjacency cfg diagram_bboxes connPairs)
    diagram_bboxes.length
  comps.map
    (build_candidate cfg diagram_contours connector_contours connPairs imageH imageW)

/-- The candidates surviving the text-rejection filter, with their
acceptance-order ids (clusterer.py lines 269-304): rejected candidates
never receive a `cluster_id`, so the running counter equals dense
renumbering of the accepted list. -/
def accepted_clusters (cfg : Config)
    (diagram_contours connector_contours handwriting_contours : List ShapeInfo)
    (imageH imageW : ℤ) : List DiagramCluster :=
  let handwriting_bboxes := handwriting_contours.map (·.bbox)
  reassign_ids
    ((candidate_clusters cfg diagram_contours connector_contours imageH imageW).filter
      (fun c => !(check_text_intersection c.bounding_box handwriting_bboxes)))

/-- Translation of `cluster_diagrams` (clusterer.py lines 168-322).  `image_shape` is
(imageH, imageW). -/
def cluster_diagrams (cfg : Config)
    (diagram_contours connector_contours handwriting_contours : List ShapeInfo)
    (imageH imageW : ℤ) : List DiagramCluster :=
  if diagram_contours.isEmpty then []
  else
    let sorted := sort_clusters cfg
      (accepted_clusters cfg diagram_contours connector_contours
        handwriting_contours imageH imageW)
    let capped := if sorted.length > cfg.maxDiagrams then
      sorted.take cfg.maxDiagrams else sorted
    reassign_ids capped

/-- Overlap test of the non-overlap pass (clusterer.py lines 384-385). -/
def boxes_overlap (b1 b2 : Box) : Bool :=
  decide (b1.x < b2.x + b2.w ∧ b1.x + b1.w > b2.x ∧
    b1.y < b2.y + b2.h ∧ b1.y + b1.h > b2.y)

/-- The shrink applied to the smaller cluster's box (clusterer.py lines
390-417), `b1` being the fixed box of the larger cluster. -/
def shrink_smaller (b1 b2 : Box) : Box :=
  let overlap_x := min (b1.x + b1.w) (b2.x + b2.w) - max b1.x b2.x
  let overlap_y := min (b1.y + b1.h) (b2.y + b2.h) - max b1.y b2.y
  if overlap_x < overlap_y then
    if b2.x < b1.x then ⟨b2.x, b2.y, max 10 (b1.x - b2.x - 1), b2.h⟩
    else
      let shift := b1.x + b1.w - b2.x + 1
      ⟨b2.x + shift, b2.y, max 10 (b2.w - shift), b2.h⟩
  else
    if b2.y < b1.y then ⟨b2.x, b2.y, b2.w, max 10 (b1.y - b2.y - 1)⟩
    else
      let shift := b1.y + b1.h - b2.y + 1
      ⟨b2.x, b2.y + shift, b2.w, max 10 (b2.h - shift)⟩

/-- Inner loop over the later (smaller) clusters (clusterer.py lines
380-417): `state` is the cluster list in original order, `js` the
original-list indices of `sorted_clusters[i+1:]`. -/
def ensure_inner (b1 : Box) (state : List DiagramCluster) (js : List Nat) :
    List DiagramCluster :=
  js.foldl (fun st j =>
    let c2 := st.getD j cluster0
    if boxes_overlap b1 c2.bounding_box then
      st.set j { c2 with bounding_box := shrink_smaller b1 c2.bounding_box }
    else st) state

/-- Translation of `ensure_non_overlapping_boxes` (clusterer.py lines 365-419).  The source
sorts the cluster objects by area (stable, descending) and mutates their
boxes in place, returning the original list; the embedding sorts the
original-list indices in the same stable order and threads the original-
order list through the updates.  The outer box (x1..h1) is read once per
outer iteration, from the current state. -/
def ensure_non_overlapping_boxes (clusters : List DiagramCluster) :
    List DiagramCluster :=
  if clusters.length ≤ 1 then clusters
  else
    let m := clusters.length
    let order := stable_sort (fun i j =>
      decide ((clusters.getD j cluster0).total_area <
        (clusters.getD i cluster0).total_area)) (List.range m)
    (List.range m).foldl (fun st p =>
      let i := order.getD p 0
      let b1 := (st.getD i cluster0).bounding_box
      ensure_inner b1 st (order.drop (p + 1))) clusters

/-! ### Permutation and frame lemmas -/

lemma insert_sorted_perm {α : Type} (lt : α → α → Bool) (x : α) (l : List α) :
    List.Perm (insert_sorted lt x l) (x :: l) := by
  induction l with
  | nil => exact List.Perm.refl _
  | cons y ys ih =>
    unfold insert_sorted
    split
    · exact (ih.cons y).trans (List.Perm.swap x y ys)
    · exact List.Perm.refl _

lemma stable_sort_perm {α : Type} (lt : α → α → Bool) (l : List α) :
    List.Perm (stable_sort lt l) l := by
  induction l with
  | nil => exact List.Perm.refl _
  | cons x xs ih =>
    exact (insert_sorted_perm lt x (stable_sort lt xs)).trans (ih.cons x)

lemma stable_sort_length {α : Type} (lt : α → α → Bool) (l : List α) :
    (stable_sort lt l).length = l.length :=
  (stable_sort_perm lt l).length_eq

/-- The row-bucketing fold of sort_clusters_by_reading_order only
redistributes the clusters it has seen. -/
lemma reading_rows_perm (n : Nat) (height_sum : ℤ) :
    ∀ (l : List DiagramCluster) (rows : List (List DiagramCluster))
      (acc : List DiagramCluster) (cy : ℤ),
      List.Perm
        (finish_rows (l.foldl (reading_step n height_sum) (rows, acc, cy)))
        (rows.flatten ++ acc ++ l) := by
  intro l
  induction l with
  | nil =>
    intro rows acc cy
    simp only [List.foldl_nil]
    unfold finish_rows
    split
    · next hemp =>
      rw [List.isEmpty_iff] at hemp
      subst hemp
      simp only [List.append_nil]
      exact List.Perm.refl _
    · simp only [List.flatten_append, List.flatten_cons, List.flatten_nil,
        List.append_nil]
      exact List.Perm.append_left _ (stable_sort_perm _ acc)
  | cons cl rest ih =>
    intro rows acc cy
    simp only [List.foldl_cons]
    unfold reading_step
    split
    · refine (ih rows (acc ++ [cl]) cy).trans ?_
      simp only [List.append_assoc, List.singleton_append]
      exact List.Perm.refl _
    · refine (ih (rows ++ [sort_by_x acc]) [cl] cl.bounding_box.y).trans ?_
      simp only [List.flatten_append, List.flatten_cons, List.flatten_nil,
        List.append_nil, List.append_assoc, List.singleton_append]
      exact List.Perm.append_left _ ((stable_sort_perm _ acc).append_right _)

lemma sort_clusters_by_reading_order_perm (clusters : List DiagramCluster) :
    List.Perm (sort_clusters_by_reading_order clusters) clusters := by
  unfold sort_clusters_by_reading_order
  split
  · exact List.Perm.refl _
  · simp only []
    rcases hs : stable_sort
        (fun a b => decide (a.bounding_box.y < b.bounding_box.y)) clusters with
      _ | ⟨c0, restY⟩
    · rw [hs]
      have hl := stable_sort_length
        (fun a b => decide (a.bounding_box.y < b.bounding_box.y)) clusters
      rw [hs] at hl
      simp only [List.length_nil] at hl
      rw [List.length_eq_zero.mp hl.symm]
    · rw [hs]
      have hperm := stable_sort_perm
        (fun a b => decide (a.bounding_box.y < b.bounding_box.y)) clusters
      rw [hs] at hperm
      refine (reading_rows_perm clusters.length
        ((clusters.map (·.bounding_box.h)).sum) restY [] [c0]
        c0.bounding_box.y).trans ?_
      simpa using hperm

lemma sort_clusters_perm (cfg : Config) (clusters : List DiagramCluster) :
    List.Perm (sort_clusters cfg clusters) clusters := by
  unfold sort_clusters
  cases cfg.sortingMethod
  · exact stable_sort_perm _ clusters
  · exact sort_clusters_by_reading_order_perm clusters

lemma map_set_eq {α β : Type} (f : α → β) (l : List α) (j : Nat) (v : α)
    (d : α) (h : f v = f (l.getD j d)) : (l.set j v).map f = l.map f := by
  induction l generalizing j with
  | nil => rfl
  | cons a t ih =>
    cases j with
    | zero =>
      simp only [List.set, List.map_cons, List.getD_cons_zero] at *
      rw [h]
    | succ k =>
      simp only [List.set, List.map_cons, List.getD_cons_succ] at *
      rw [ih k h]

/-- Every field of a cluster except its bounding box. -/
def drop_box (c : DiagramCluster) :
    Nat × List Nat × List Contour × (ℚ × ℚ) × ℤ × ℚ :=
  (c.id, c.contour_ids, c.contours, c.centroid, c.total_area, c.confidence)

lemma ensure_inner_drop_box (b1 : Box) (js : List Nat) :
    ∀ st : List DiagramCluster,
      (ensure_inner b1 st js).map drop_box = st.map drop_box := by
  induction js with
  | nil => intro st; rfl
  | cons j t ih =>
    intro st
    have hstep : ensure_inner b1 st (j :: t) =
        ensure_inner b1
          (if boxes_overlap b1 (st.getD j cluster0).bounding_box then
            st.set j { st.getD j cluster0 with
              bounding_box := shrink_smaller b1 (st.getD j cluster0).bounding_box }
          else st) t := rfl
    rw [hstep, ih]
    split
    · exact map_set_eq drop_box st j _ cluster0 rfl
    · rfl

lemma ensure_outer_drop_box (order : List Nat) (ps : List Nat) :
    ∀ st : List DiagramCluster,
      ((ps.foldl (fun st2 p =>
          ensure_inner ((st2.getD (order.getD p 0) cluster0).bounding_box)
            st2 (order.drop (p + 1))) st).map drop_box) = st.map drop_box := by
  induction ps with
  | nil => intro st; rfl
  | cons p t ih =>
    intro st
    simp only [List.foldl_cons]
    rw [ih, ensure_inner_drop_box]

/-- C10: the non-overlap pass returns the same clusters in the same order
and touches only the bounding_box field: id, contour_ids, contours,
centroid, total_area and confidence are all unchanged (in particular, after
a shrink the stored centroid need not be the box center any more). -/
theorem ensure_non_overlapping_boxes_frame (clusters : List DiagramCluster) :
    (ensure_non_overlapping_boxes clusters).map drop_box =
      clusters.map drop_box := by
  unfold ensure_non_overlapping_boxes
  split
  · rfl
  · exact ensure_outer_drop_box _ _ clusters

lemma ensure_non_overlapping_boxes_length (clusters : List DiagramCluster) :
    (ensure_non_overlapping_boxes clusters).length = clusters.length := by
  have h := congrArg List.length (ensure_non_overlapping_boxes_frame clusters)
  simpa using h

lemma reassign_ids_map {β : Type} (f : DiagramCluster → β)
    (hf : ∀ (c : DiagramCluster) (i : Nat), f { c with id := i } = f c)
    (l : List DiagramCluster) : (reassign_ids l).map f = l.map f := by
  unfold reassign_ids
  suffices key : ∀ n, ((List.enumFrom n l).map
      (fun p => { p.2 with id := p.1 })).map f = l.map f from key 0
  intro n
  induction l generalizing n with
  | nil => rfl
  | cons c t ih =>
    simp only [List.enumFrom, List.map_cons]
    rw [hf, ih]

lemma reassign_ids_length (l : List DiagramCluster) :
    (reassign_ids l).length = l.length := by
  have h := congrArg List.length
    (reassign_ids_map (fun c => c.bounding_box) (fun _ _ => rfl) l)
  simpa using h

lemma reassign_ids_map_id (l : List DiagramCluster) :
    (reassign_ids l).map (·.id) = List.range l.length := by
  unfold reassign_ids
  rw [List.range_eq_range']
  suffices key : ∀ n, ((List.enumFrom n l).map
      (fun p => { p.2 with id := p.1 })).map (·.id) = List.range' n l.length
    from key 0
  intro n
  induction l generalizing n with
  | nil => rfl
  | cons c t ih =>
    simp only [List.enumFrom, List.map_cons, List.length_cons, List.range'_succ]
    rw [ih]

lemma mem_enumFrom_snd {α : Type} : ∀ (n : Nat) (l : List α) (p : Nat × α),
    p ∈ List.enumFrom n l → p.2 ∈ l := by
  intro n l
  induction l generalizing n with
  | nil => intro p hp; simp [List.enumFrom] at hp
  | cons x t ih =>
    intro p hp
    simp only [List.enumFrom, List.mem_cons] at hp
    rcases hp with rfl | hp
    · exact List.mem_cons_self _ _
    · exact List.mem_cons_of_mem _ (ih (n + 1) p hp)

lemma mem_reassign_ids (l : List DiagramCluster) (cl : DiagramCluster)
    (h : cl ∈ reassign_ids l) : ∃ c0 ∈ l, cl = { c0 with id := cl.id } := by
  unfold reassign_ids at h
  rw [List.mem_map] at h
  obtain ⟨p, hp, hcl⟩ := h
  refine ⟨p.2, mem_enumFrom_snd 0 l p hp, ?_⟩
  rw [← hcl]

/-- Every cluster returned by cluster_diagrams is an accepted cluster up to
its reassigned id. -/
lemma cluster_diagrams_mem (cfg : Config) (d c h : List ShapeInfo)
    (imageH imageW : ℤ) (cl : DiagramCluster)
    (hcl : cl ∈ cluster_diagrams cfg d c h imageH imageW) :
    ∃ c0 ∈ accepted_clusters cfg d c h imageH imageW,
      cl = { c0 with id := cl.id } := by
  unfold cluster_diagrams at hcl
  split at hcl
  · simp at hcl
  · simp only [] at hcl
    obtain ⟨c0, hc0, heq⟩ := mem_reassign_ids _ _ hcl
    have hc0' : c0 ∈ sort_clusters cfg
        (accepted_clusters cfg d c h imageH imageW) := by
      by_cases hlen : (sort_clusters cfg
          (accepted_clusters cfg d c h imageH imageW)).length > cfg.maxDiagrams
      · rw [if_pos hlen] at hc0
        exact List.take_subset _ _ hc0
      · rw [if_neg hlen] at hc0
        exact hc0
    exact ⟨c0, (sort_clusters_perm cfg _).mem_iff.mp hc0', heq⟩

/-- Every accepted cluster passed the text-rejection filter and is a
candidate cluster up to its id. -/
lemma accepted_clusters_spec (cfg : Config) (d c h : List ShapeInfo)
    (imageH imageW : ℤ) (cl : DiagramCluster)
    (hcl : cl ∈ accepted_clusters cfg d c h imageH imageW) :
    check_text_intersection cl.bounding_box (h.map (·.bbox)) = false ∧
    ∃ cand ∈ candidate_clusters cfg d c imageH imageW,
      cl = { cand with id := cl.id } := by
  unfold accepted_clusters at hcl
  obtain ⟨c0, hc0, heq⟩ := mem_reassign_ids _ _ hcl
  rw [List.mem_filter] at hc0
  constructor
  · rw [heq]
    simpa using hc0.2
  · exact ⟨c0, hc0.1, heq⟩

/-- C2: for every input, a cluster whose padded bounding box overlaps some
handwriting shape's bounding box by an area exceeding 0.75 of the cluster's
own box area never appears in the list returned by cluster_diagrams.  (The
nonnegativity hypotheses say the returned box is well-formed; boxes with a
negative side are malformed and excluded by the contract.) -/
theorem cluster_diagrams_text_rejection (cfg : Config)
    (d c h : List ShapeInfo) (imageH imageW : ℤ) (b hw : Box)
    (hb : b ∈ (cluster_diagrams cfg d c h imageH imageW).map (·.bounding_box))
    (hhw : hw ∈ h.map (·.bbox)) (hwpos : 0 ≤ b.w) (hhpos : 0 ≤ b.h) :
    ¬ ((overlap_area b hw : ℚ) > 0.75 * ((b.w * b.h : ℤ) : ℚ)) := by
  intro hgt
  have hz : 3 * (b.w * b.h) < 4 * overlap_area b hw := by
    have hq : (3 : ℚ) * ((b.w * b.h : ℤ) : ℚ) <
        4 * ((overlap_area b hw : ℤ) : ℚ) := by linarith
    exact_mod_cast hq
  -- the returned box passed the filter
  rw [List.mem_map] at hb
  obtain ⟨cl, hclmem, hclbox⟩ := hb
  obtain ⟨c0, hc0, heq⟩ := cluster_diagrams_mem cfg d c h imageH imageW cl hclmem
  have hcheck := (accepted_clusters_spec cfg d c h imageH imageW c0 hc0).1
  have hbox : c0.bounding_box = b := by rw [heq] at hclbox; exact hclbox
  rw [hbox] at hcheck
  -- overlap exceeding 3/4 of a nonnegative area forces a strict overlap,
  -- hence the buffered proximity test holds and the filter would have fired
  have harea : 0 ≤ b.w * b.h := mul_nonneg hwpos hhpos
  have hovpos : 0 < overlap_area b hw := by nlinarith
  have hox : 0 < max 0 (min (b.x + b.w) (hw.x + hw.w) - max b.x hw.x) ∧
      0 < max 0 (min (b.y + b.h) (hw.y + hw.h) - max b.y hw.y) := by
    unfold overlap_area at hovpos
    rcases mul_pos_iff.mp hovpos with ⟨h1, h2⟩ | ⟨h1, h2⟩
    · exact ⟨h1, h2⟩
    · exact absurd h1 (not_lt.mpr (le_max_left _ _))
  have hx := lt_max_iff.mp hox.1
  have hy := lt_max_iff.mp hox.2
  have hxpos : 0 < min (b.x + b.w) (hw.x + hw.w) - max b.x hw.x := by
    rcases hx with hx | hx
    · exact absurd hx (lt_irrefl 0)
    · exact hx
  have hypos : 0 < min (b.y + b.h) (hw.y + hw.h) - max b.y hw.y := by
    rcases hy with hy | hy
    · exact absurd hy (lt_irrefl 0)
    · exact hy
  have hbuf : b.x < hw.x + hw.w + 5 ∧ b.x + b.w > hw.x - 5 ∧
      b.y < hw.y + hw.h + 5 ∧ b.y + b.h > hw.y - 5 := by
    have h1 : max b.x hw.x < min (b.x + b.w) (hw.x + hw.w) := by linarith
    have h2 : max b.y hw.y < min (b.y + b.h) (hw.y + hw.h) := by linarith
    have h1a : b.x ≤ max b.x hw.x := le_max_left _ _
    have h1b : hw.x ≤ max b.x hw.x := le_max_right _ _
    have h1c : min (b.x + b.w) (hw.x + hw.w) ≤ b.x + b.w := min_le_left _ _
    have h1d : min (b.x + b.w) (hw.x + hw.w) ≤ hw.x + hw.w := min_le_right _ _
    have h2a : b.y ≤ max b.y hw.y := le_max_left _ _
    have h2b : hw.y ≤ max b.y hw.y := le_max_right _ _
    have h2c : min (b.y + b.h) (hw.y + hw.h) ≤ b.y + b.h := min_le_left _ _
    have h2d : min (b.y + b.h) (hw.y + hw.h) ≤ hw.y + hw.h := min_le_right _ _
    refine ⟨by linarith, by linarith, by linarith, by linarith⟩
  have hpred : (fun hb2 =>
      if b.x < hb2.x + hb2.w + 5 ∧ b.x + b.w > hb2.x - 5 ∧
         b.y < hb2.y + hb2.h + 5 ∧ b.y + b.h > hb2.y - 5 then
        decide (4 * overlap_area b hb2 > 3 * (b.w * b.h))
      else false) hw = true := by
    simp only []
    rw [if_pos ⟨hbuf.1, hbuf.2.1, hbuf.2.2.1, hbuf.2.2.2⟩]
    exact decide_eq_true hz
  have hany : check_text_intersection b (h.map (·.bbox)) = true := by
    unfold check_text_intersection
    exact List.any_eq_true.mpr ⟨hw, hhw, hpred⟩
  rw [hcheck] at hany
  cases hany

theorem cluster_diagrams_text_rejection_witness :
    (⟨40, 40, 50, 50⟩ : Box) ∈
      (cluster_diagrams defaultConfig [⟨⟨0, 9⟩, ⟨50, 50, 30, 30⟩, 0.8⟩] []
        [⟨⟨1, 4⟩, ⟨150, 150, 5, 5⟩, 1⟩] 200 200).map (·.bounding_box)
    ∧ (⟨150, 150, 5, 5⟩ : Box) ∈
        ([⟨⟨1, 4⟩, ⟨150, 150, 5, 5⟩, 1⟩] : List ShapeInfo).map (·.bbox)
    ∧ ¬ ((overlap_area ⟨40, 40, 50, 50⟩ ⟨150, 150, 5, 5⟩ : ℚ) >
        0.75 * (((50 : ℤ) * 50 : ℤ) : ℚ)) :=
  ⟨by decide, by decide,
   cluster_diagrams_text_rejection defaultConfig
     [⟨⟨0, 9⟩, ⟨50, 50, 30, 30⟩, 0.8⟩] [] [⟨⟨1, 4⟩, ⟨150, 150, 5, 5⟩, 1⟩]
     200 200 ⟨40, 40, 50, 50⟩ ⟨150, 150, 5, 5⟩ (by decide) (by decide)
     (by decide) (by decide)⟩

/-- C9: whenever the accepted candidate clusters outnumber max_diagrams,
cluster_diagrams returns exactly max_diagrams clusters (the first
max_diagrams under the active sort order) with ids reassigned densely to
0..max_diagrams-1. -/
theorem cluster_diagrams_cap (cfg : Config) (d c h : List ShapeInfo)
    (imageH imageW : ℤ)
    (hcount : (accepted_clusters cfg d c h imageH imageW).length >
      cfg.maxDiagrams) :
    (cluster_diagrams cfg d c h imageH imageW).length = cfg.maxDiagrams
    ∧ (cluster_diagrams cfg d c h imageH imageW).map (·.id) =
        List.range cfg.maxDiagrams := by
  have hne : d.isEmpty = false := by
    cases d with
    | nil =>
      have hemp : accepted_clusters cfg [] c h imageH imageW = [] := rfl
      rw [hemp] at hcount
      simp at hcount
    | cons s d' => rfl
  have hlen : (sort_clusters cfg
      (accepted_clusters cfg d c h imageH imageW)).length >
      cfg.maxDiagrams := by
    rw [(sort_clusters_perm cfg _).length_eq]
    exact hcount
  unfold cluster_diagrams
  rw [hne]
  simp only [Bool.false_eq_true, if_false, if_pos hlen]
  constructor
  · rw [reassign_ids_length, List.length_take]
    omega
  · rw [reassign_ids_map_id, List.length_take]
    congr 1
    omega

def capShapes : List ShapeInfo :=
  (List.range 15).map (fun k => ⟨⟨k, 100⟩, ⟨200 * (k : ℤ), 0, 10, 10⟩, 1⟩)

theorem cluster_diagrams_cap_witness :
    (accepted_clusters defaultConfig capShapes [] [] 100 3000).length >
      defaultConfig.maxDiagrams
    ∧ (cluster_diagrams defaultConfig capShapes [] [] 100 3000).length =
        defaultConfig.maxDiagrams
    ∧ (cluster_diagrams defaultConfig capShapes [] [] 100 3000).map (·.id) =
        List.range defaultConfig.maxDiagrams :=
  ⟨by decide,
   (cluster_diagrams_cap defaultConfig capShapes [] [] 100 3000 (by decide)).1,
   (cluster_diagrams_cap defaultConfig capShapes [] [] 100 3000 (by decide)).2⟩

/-- The five clusters of the reading-order scenario, with the sizes used by
test_reading_order.py: ids 0 = top-right (200,50), 1 = top-left (20,60),
2 = bottom-left (30,120), 3 = bottom-right (150,110), 4 = top-middle
(100,55). -/
def readingClusters : List DiagramCluster :=
  [⟨0, [0], [], ⟨200, 50, 50, 30⟩, (0, 0), 1000, 1⟩,
   ⟨1, [1], [], ⟨20, 60, 40, 25⟩, (0, 0), 800, 1⟩,
   ⟨2, [2], [], ⟨30, 120, 60, 35⟩, (0, 0), 1500, 1⟩,
   ⟨3, [3], [], ⟨150, 110, 45, 28⟩, (0, 0), 700, 1⟩,
   ⟨4, [4], [], ⟨100, 55, 45, 30⟩, (0, 0), 900, 1⟩]

/-- C8: under reading-order sorting (row band = half the mean cluster
height), the five clusters come back as top-left, top-middle, top-right,
bottom-left, bottom-right. -/
theorem reading_order_scenario :
    (sort_clusters_by_reading_order readingClusters).map (·.bounding_box) =
      [⟨20, 60, 40, 25⟩, ⟨100, 55, 45, 30⟩, ⟨200, 50, 50, 30⟩,
       ⟨30, 120, 60, 35⟩, ⟨150, 110, 45, 28⟩] := by decide

lemma boxes_overlap_comm (b1 b2 : Box) :
    boxes_overlap b1 b2 = boxes_overlap b2 b1 := by
  unfold boxes_overlap
  apply decide_eq_decide.mpr
  constructor
  · rintro ⟨a, b, c, d⟩; exact ⟨b, a, d, c⟩
  · rintro ⟨a, b, c, d⟩; exact ⟨b, a, d, c⟩

/-- When the two boxes of a two-cluster input do not overlap, the pass
leaves the list untouched. -/
lemma ensure_pair_no_overlap (c1 c2 : DiagramCluster)
    (h : boxes_overlap c1.bounding_box c2.bounding_box = false) :
    ensure_non_overlapping_boxes [c1, c2] = [c1, c2] := by
  have hsym : boxes_overlap c2.bounding_box c1.bounding_box = false := by
    rw [boxes_overlap_comm]; exact h
  unfold ensure_non_overlapping_boxes
  rw [if_neg (by simp)]
  simp only [List.length_cons, List.length_nil]
  have hrange : List.range (0 + 1 + 1) = [0, 1] := rfl
  rw [hrange]
  cases hb : decide (c1.total_area < c2.total_area) with
  | true =>
    have ho : stable_sort (fun i j =>
        decide ((List.getD [c1, c2] j cluster0).total_area <
          (List.getD [c1, c2] i cluster0).total_area)) [0, 1] = [1, 0] := by
      simp only [stable_sort, List.foldr_cons, List.foldr_nil, insert_sorted,
        List.getD_cons_zero, List.getD_cons_succ, hb, if_true]
    rw [ho]
    simp only [List.foldl_cons, List.foldl_nil, ensure_inner, List.drop_succ_cons,
      List.drop_zero, List.drop_nil, List.getD_cons_zero, List.getD_cons_succ,
      hsym, Bool.false_eq_true, if_false]
  | false =>
    have ho : stable_sort (fun i j =>
        decide ((List.getD [c1, c2] j cluster0).total_area <
          (List.getD [c1, c2] i cluster0).total_area)) [0, 1] = [0, 1] := by
      simp only [stable_sort, List.foldr_cons, List.foldr_nil, insert_sorted,
        List.getD_cons_zero, List.getD_cons_succ, hb, Bool.false_eq_true, if_false]
    rw [ho]
    simp only [List.foldl_cons, List.foldl_nil, ensure_inner, List.drop_succ_cons,
      List.drop_zero, List.drop_nil, List.getD_cons_zero, List.getD_cons_succ,
      h, Bool.false_eq_true, if_false]

/-- C5 (amended): for two-cluster inputs the non-overlap pass is idempotent
whenever its first application leaves the two boxes non-overlapping — in
particular whenever no shrink clamps at the 10 px floor.  (The
counterexample shows that a floor-clamped shrink can leave residual overlap
which a second application resolves along the other axis, changing a box
again.) -/
theorem ensure_two_cluster_idempotent (c1 c2 : DiagramCluster)
    (h : boxes_overlap
      ((ensure_non_overlapping_boxes [c1, c2]).getD 0 cluster0).bounding_box
      ((ensure_non_overlapping_boxes [c1, c2]).getD 1 cluster0).bounding_box
      = false) :
    ensure_non_overlapping_boxes (ensure_non_overlapping_boxes [c1, c2]) =
      ensure_non_overlapping_boxes [c1, c2] := by
  have hlen : (ensure_non_overlapping_boxes [c1, c2]).length = 2 := by
    rw [ensure_non_overlapping_boxes_length]; rfl
  rcases hout : ensure_non_overlapping_boxes [c1, c2] with _ | ⟨d1, rest⟩
  · rw [hout] at hlen; simp at hlen
  · rcases rest with _ | ⟨d2, rest2⟩
    · rw [hout] at hlen; simp at hlen
    · rcases rest2 with _ | ⟨d3, rest3⟩
      · rw [hout] at h
        simp only [List.getD_cons_zero, List.getD_cons_succ] at h
        exact ensure_pair_no_overlap d1 d2 h
      · rw [hout] at hlen; simp at hlen

def clusterBig : DiagramCluster :=
  ⟨0, [0], [⟨0, 100⟩], ⟨10, 10, 100, 100⟩, (0, 0), 1000, 1⟩

def clusterSmall : DiagramCluster :=
  ⟨1, [1], [⟨1, 10⟩], ⟨5, 8, 6, 5⟩, (0, 0), 10, 1⟩

/-- C5 counterexample: on this two-cluster input the first pass shrinks the
smaller box horizontally but the 10 px width floor leaves it still
overlapping the larger box, and the second pass then shrinks it again
(vertically, to height 10), so the pass is not idempotent. -/
theorem ensure_idempotence_counterexample :
    (ensure_non_overlapping_boxes
      (ensure_non_overlapping_boxes [clusterBig, clusterSmall])).map
        (·.bounding_box) ≠
    (ensure_non_overlapping_boxes [clusterBig, clusterSmall]).map
      (·.bounding_box) := by decide

theorem ensure_two_cluster_idempotent_witness :
    boxes_overlap
      ((ensure_non_overlapping_boxes [clusterBig,
        { clusterSmall with bounding_box := ⟨150, 150, 20, 20⟩ }]).getD 0
          cluster0).bounding_box
      ((ensure_non_overlapping_boxes [clusterBig,
        { clusterSmall with bounding_box := ⟨150, 150, 20, 20⟩ }]).getD 1
          cluster0).bounding_box = false
    ∧ ensure_non_overlapping_boxes (ensure_non_overlapping_boxes
        [clusterBig, { clusterSmall with bounding_box := ⟨150, 150, 20, 20⟩ }]) =
      ensure_non_overlapping_boxes
        [clusterBig, { clusterSmall with bounding_box := ⟨150, 150, 20, 20⟩ }] :=
  ⟨by decide,
   ensure_two_cluster_idempotent clusterBig
     { clusterSmall with bounding_box := ⟨150, 150, 20, 20⟩ } (by decide)⟩

/-- Well-formed input box: lies in the page with nonnegative extent
(malformed boxes with a negative side are a caller error per the contract). -/
def box_in_page (imageH imageW : ℤ) (b : Box) : Prop :=
  0 ≤ b.x ∧ 0 ≤ b.y ∧ b.x + b.w ≤ imageW ∧ b.y + b.h ≤ imageH ∧
  0 ≤ b.w ∧ 0 ≤ b.h

instance (imageH imageW : ℤ) (b : Box) :
    Decidable (box_in_page imageH imageW b) := by
  unfold box_in_page; infer_instance

/-- The page-bounds part of the claimed clustering invariant. -/
def box_within_page (imageH imageW : ℤ) (b : Box) : Prop :=
  0 ≤ b.x ∧ 0 ≤ b.y ∧ b.x + b.w ≤ imageW ∧ b.y + b.h ≤ imageH

instance (imageH imageW : ℤ) (b : Box) :
    Decidable (box_within_page imageH imageW b) := by
  unfold box_within_page; infer_instance

lemma box0_in_page {imageH imageW : ℤ} (hH : 0 ≤ imageH) (hW : 0 ≤ imageW) :
    box_in_page imageH imageW box0 := by
  unfold box_in_page box0
  refine ⟨le_refl 0, le_refl 0, ?_, ?_, le_refl 0, le_refl 0⟩ <;> simpa

lemma foldl_min_lb {l : List Box} {f : Box → ℤ} {init c : ℤ}
    (h0 : c ≤ init) (hl : ∀ bb ∈ l, c ≤ f bb) :
    c ≤ l.foldl (fun m bb => min m (f bb)) init := by
  induction l generalizing init with
  | nil => exact h0
  | cons b t ih =>
    simp only [List.foldl_cons]
    exact ih (le_min h0 (hl b (List.mem_cons_self b t)))
      (fun bb hbb => hl bb (List.mem_cons_of_mem b hbb))

lemma foldl_min_le_init {l : List Box} {f : Box → ℤ} {init : ℤ} :
    l.foldl (fun m bb => min m (f bb)) init ≤ init := by
  induction l generalizing init with
  | nil => exact le_refl init
  | cons b t ih =>
    simp only [List.foldl_cons]
    exact le_trans ih (min_le_left _ _)

lemma foldl_max_ub {l : List Box} {f : Box → ℤ} {init c : ℤ}
    (h0 : init ≤ c) (hl : ∀ bb ∈ l, f bb ≤ c) :
    l.foldl (fun m bb => max m (f bb)) init ≤ c := by
  induction l generalizing init with
  | nil => exact h0
  | cons b t ih =>
    simp only [List.foldl_cons]
    exact ih (max_le h0 (hl b (List.mem_cons_self b t)))
      (fun bb hbb => hl bb (List.mem_cons_of_mem b hbb))

lemma foldl_max_ge_init {l : List Box} {f : Box → ℤ} {init : ℤ} :
    init ≤ l.foldl (fun m bb => max m (f bb)) init := by
  induction l generalizing init with
  | nil => exact le_refl init
  | cons b t ih =>
    simp only [List.foldl_cons]
    exact le_trans (le_max_left _ _) ih

/-- The min/max envelope of in-page boxes is an in-page box. -/
lemma merge_bounding_boxes_in_page {imageH imageW : ℤ}
    (hH : 0 ≤ imageH) (hW : 0 ≤ imageW) (bboxes : List Box)
    (h : ∀ bb ∈ bboxes, box_in_page imageH imageW bb) :
    box_in_page imageH imageW (merge_bounding_boxes bboxes) := by
  match bboxes with
  | [] => exact box0_in_page hH hW
  | b :: rest =>
    have hb := h b (List.mem_cons_self b rest)
    have hrest : ∀ bb ∈ rest, box_in_page imageH imageW bb :=
      fun bb hbb => h bb (List.mem_cons_of_mem b hbb)
    obtain ⟨hbx, hby, hbxw, hbyh, hbw, hbh⟩ := hb
    have h1 : 0 ≤ rest.foldl (fun m bb => min m bb.x) b.x :=
      foldl_min_lb hbx (fun bb hbb => (hrest bb hbb).1)
    have h2 : 0 ≤ rest.foldl (fun m bb => min m bb.y) b.y :=
      foldl_min_lb hby (fun bb hbb => (hrest bb hbb).2.1)
    have h3 : rest.foldl (fun m bb => max m (bb.x + bb.w)) (b.x + b.w) ≤ imageW :=
      foldl_max_ub hbxw (fun bb hbb => (hrest bb hbb).2.2.1)
    have h4 : rest.foldl (fun m bb => max m (bb.y + bb.h)) (b.y + b.h) ≤ imageH :=
      foldl_max_ub hbyh (fun bb hbb => (hrest bb hbb).2.2.2.1)
    have h5 : rest.foldl (fun m bb => min m bb.x) b.x ≤ b.x := foldl_min_le_init
    have h6 : rest.foldl (fun m bb => min m bb.y) b.y ≤ b.y := foldl_min_le_init
    have h7 : b.x + b.w ≤ rest.foldl (fun m bb => max m (bb.x + bb.w)) (b.x + b.w) :=
      foldl_max_ge_init
    have h8 : b.y + b.h ≤ rest.foldl (fun m bb => max m (bb.y + bb.h)) (b.y + b.h) :=
      foldl_max_ge_init
    unfold merge_bounding_boxes box_in_page
    dsimp only
    refine ⟨h1, h2, by linarith, by linarith, by linarith, by linarith⟩

/-- Padding an in-page box keeps it in the page and, with padding ≥ 10 and a
page at least 10 px each way, gives both sides the 10 px floor. -/
lemma add_padding_spec (cfg : Config) (bbox : Box) (imageH imageW : ℤ)
    (hpad : 10 ≤ cfg.padding) (hH : 10 ≤ imageH) (hW : 10 ≤ imageW)
    (hb : box_in_page imageH imageW bbox) :
    box_within_page imageH imageW (add_padding cfg bbox imageH imageW)
    ∧ 10 ≤ (add_padding cfg bbox imageH imageW).w
    ∧ 10 ≤ (add_padding cfg bbox imageH imageW).h := by
  obtain ⟨hx, hy, hxw, hyh, hw, hh⟩ := hb
  have hnxl : (0 : ℤ) ≤ max 0 (bbox.x - cfg.padding) := le_max_left _ _
  have hnyl : (0 : ℤ) ≤ max 0 (bbox.y - cfg.padding) := le_max_left _ _
  have hnxu : 10 ≤ imageW - max 0 (bbox.x - cfg.padding) := by
    rcases le_or_lt (bbox.x - cfg.padding) 0 with hc | hc
    · rw [max_eq_left hc]; linarith
    · rw [max_eq_right hc.le]; linarith
  have hnyu : 10 ≤ imageH - max 0 (bbox.y - cfg.padding) := by
    rcases le_or_lt (bbox.y - cfg.padding) 0 with hc | hc
    · rw [max_eq_left hc]; linarith
    · rw [max_eq_right hc.le]; linarith
  have hw2 : (10 : ℤ) ≤ bbox.w + 2 * cfg.padding := by linarith
  have hh2 : (10 : ℤ) ≤ bbox.h + 2 * cfg.padding := by linarith
  unfold add_padding box_within_page
  refine ⟨⟨hnxl, hnyl, ?_, ?_⟩, le_min hnxu hw2, le_min hnyu hh2⟩
  · have := min_le_left (imageW - max 0 (bbox.x - cfg.padding))
      (bbox.w + 2 * cfg.padding)
    linarith
  · have := min_le_left (imageH - max 0 (bbox.y - cfg.padding))
      (bbox.h + 2 * cfg.padding)
    linarith

lemma getD_mem_or_eq {α : Type} (l : List α) (i : Nat) (d : α) :
    l.getD i d ∈ l ∨ l.getD i d = d := by
  induction l generalizing i with
  | nil => right; rfl
  | cons a t ih =>
    cases i with
    | zero => left; exact List.mem_cons_self a t
    | succ k =>
      rcases ih k with hm | he
      · left; exact List.mem_cons_of_mem a hm
      · right; exact he

/-- Every member box of a candidate cluster is in the page. -/
lemma candidate_member_bboxes_in_page {imageH imageW : ℤ}
    (hH : 0 ≤ imageH) (hW : 0 ≤ imageW)
    (d c : List ShapeInfo) (connPairs : List (Nat × Nat × Nat)) (ids : List Nat)
    (hd : ∀ s ∈ d, box_in_page imageH imageW s.bbox)
    (hc : ∀ s ∈ c, box_in_page imageH imageW s.bbox) :
    ∀ bb ∈ candidate_member_bboxes d c connPairs ids,
      box_in_page imageH imageW bb := by
  intro bb hbb
  unfold candidate_member_bboxes at hbb
  rw [List.mem_append] at hbb
  rcases hbb with hbb | hbb
  · rw [List.mem_map] at hbb
    obtain ⟨idx, _, hbbeq⟩ := hbb
    rcases getD_mem_or_eq (d.map (·.bbox)) idx box0 with hm | he
    · rw [List.mem_map] at hm
      obtain ⟨s, hs, hseq⟩ := hm
      rw [← hbbeq, ← hseq]
      exact hd s hs
    · rw [← hbbeq, he]
      exact box0_in_page hH hW
  · rw [List.mem_map] at hbb
    obtain ⟨k, _, hbbeq⟩ := hbb
    rcases getD_mem_or_eq c k shape0 with hm | he
    · rw [← hbbeq]
      exact hc _ hm
    · rw [← hbbeq, he]
      exact box0_in_page hH hW

/-- Every candidate cluster's padded box is in the page with the 10 px
floor on both sides. -/
lemma candidate_box_good (cfg : Config) (d c : List ShapeInfo)
    (imageH imageW : ℤ)
    (hpad : 10 ≤ cfg.padding) (hH : 10 ≤ imageH) (hW : 10 ≤ imageW)
    (hd : ∀ s ∈ d, box_in_page imageH imageW s.bbox)
    (hc : ∀ s ∈ c, box_in_page imageH imageW s.bbox)
    (cand : DiagramCluster)
    (hcand : cand ∈ candidate_clusters cfg d c imageH imageW) :
    box_within_page imageH imageW cand.bounding_box
    ∧ 10 ≤ cand.bounding_box.w ∧ 10 ≤ cand.bounding_box.h := by
  unfold candidate_clusters at hcand
  simp only [List.mem_map] at hcand
  obtain ⟨ids, hids, hbuild⟩ := hcand
  have hbox : cand.bounding_box = add_padding cfg
      (merge_bounding_boxes (candidate_member_bboxes d c
        (connected_by_connector cfg (d.map (·.bbox)) (c.map (·.bbox)))
        ids)) imageH imageW := by
    rw [← hbuild]
    rfl
  rw [hbox]
  exact add_padding_spec cfg _ imageH imageW hpad hH hW
    (merge_bounding_boxes_in_page (by linarith) (by linarith) _
      (candidate_member_bboxes_in_page (by linarith) (by linarith) d c _ ids hd hc))

lemma getD_mem_of_lt {α : Type} : ∀ (l : List α) (i : Nat) (d : α),
    i < l.length → l.getD i d ∈ l := by
  intro l
  induction l with
  | nil => intro i d hi; simp at hi
  | cons a t ih =>
    intro i d hi
    cases i with
    | zero => exact List.mem_cons_self a t
    | succ k =>
      exact List.mem_cons_of_mem a (ih k d (by simpa using hi))

lemma mem_set_cases {α : Type} : ∀ (l : List α) (j : Nat) (v x : α),
    x ∈ l.set j v → x ∈ l ∨ (x = v ∧ j < l.length) := by
  intro l
  induction l with
  | nil => intro j v x hx; simp at hx
  | cons a t ih =>
    intro j v x hx
    cases j with
    | zero =>
      rcases List.mem_cons.mp hx with rfl | hx
      · right; exact ⟨rfl, by simp⟩
      · left; exact List.mem_cons_of_mem a hx
    | succ k =>
      rcases List.mem_cons.mp hx with rfl | hx
      · left; exact List.mem_cons_self _ _
      · rcases ih k v x hx with hm | ⟨rfl, hk⟩
        · left; exact List.mem_cons_of_mem a hm
        · right; exact ⟨rfl, by simpa using Nat.succ_lt_succ hk⟩

/-- A shrink never moves a box to negative coordinates and always leaves
both sides at least 10 px. -/
lemma shrink_smaller_spec (b1 b2 : Box)
    (h2 : 0 ≤ b2.x ∧ 0 ≤ b2.y ∧ 10 ≤ b2.w ∧ 10 ≤ b2.h)
    (hov : boxes_overlap b1 b2 = true) :
    0 ≤ (shrink_smaller b1 b2).x ∧ 0 ≤ (shrink_smaller b1 b2).y ∧
    10 ≤ (shrink_smaller b1 b2).w ∧ 10 ≤ (shrink_smaller b1 b2).h := by
  unfold boxes_overlap at hov
  rw [decide_eq_true_eq] at hov
  obtain ⟨ho1, ho2, ho3, ho4⟩ := hov
  obtain ⟨hx2, hy2, hw2, hh2⟩ := h2
  unfold shrink_smaller
  dsimp only
  split_ifs with hxy hxlt hylt <;> dsimp only
  · exact ⟨hx2, hy2, le_max_left _ _, hh2⟩
  · exact ⟨by linarith, hy2, le_max_left _ _, hh2⟩
  · exact ⟨hx2, hy2, hw2, le_max_left _ _⟩
  · exact ⟨hx2, by linarith, hw2, le_max_left _ _⟩

lemma ensure_inner_floor (b1 : Box) (js : List Nat) :
    ∀ st : List DiagramCluster,
      (∀ cl ∈ st, 0 ≤ cl.bounding_box.x ∧ 0 ≤ cl.bounding_box.y ∧
        10 ≤ cl.bounding_box.w ∧ 10 ≤ cl.bounding_box.h) →
      ∀ cl ∈ ensure_inner b1 st js,
        0 ≤ cl.bounding_box.x ∧ 0 ≤ cl.bounding_box.y ∧
        10 ≤ cl.bounding_box.w ∧ 10 ≤ cl.bounding_box.h := by
  induction js with
  | nil => intro st hst; exact hst
  | cons j t ih =>
    intro st hst
    have hstep : ensure_inner b1 st (j :: t) =
        ensure_inner b1
          (if boxes_overlap b1 (st.getD j cluster0).bounding_box then
            st.set j { st.getD j cluster0 with
              bounding_box := shrink_smaller b1 (st.getD j cluster0).bounding_box }
          else st) t := rfl
    rw [hstep]
    apply ih
    split
    · next hov =>
      intro cl hcl
      rcases mem_set_cases st j _ cl hcl with hm | ⟨rfl, hj⟩
      · exact hst cl hm
      · exact shrink_smaller_spec b1 (st.getD j cluster0).bounding_box
          (hst _ (getD_mem_of_lt st j cluster0 hj)) hov
    · exact hst

lemma ensure_floor (clusters : List DiagramCluster)
    (h : ∀ cl ∈ clusters, 0 ≤ cl.bounding_box.x ∧ 0 ≤ cl.bounding_box.y ∧
      10 ≤ cl.bounding_box.w ∧ 10 ≤ cl.bounding_box.h) :
    ∀ cl ∈ ensure_non_overlapping_boxes clusters,
      0 ≤ cl.bounding_box.x ∧ 0 ≤ cl.bounding_box.y ∧
      10 ≤ cl.bounding_box.w ∧ 10 ≤ cl.bounding_box.h := by
  unfold ensure_non_overlapping_boxes
  split
  · exact h
  · dsimp only
    generalize stable_sort _ (List.range clusters.length) = order
    suffices key : ∀ (ps : List Nat) (st : List DiagramCluster),
        (∀ cl ∈ st, 0 ≤ cl.bounding_box.x ∧ 0 ≤ cl.bounding_box.y ∧
          10 ≤ cl.bounding_box.w ∧ 10 ≤ cl.bounding_box.h) →
        ∀ cl ∈ ps.foldl (fun st2 p =>
            ensure_inner ((st2.getD (order.getD p 0) cluster0).bounding_box)
              st2 (order.drop (p + 1))) st,
          0 ≤ cl.bounding_box.x ∧ 0 ≤ cl.bounding_box.y ∧
          10 ≤ cl.bounding_box.w ∧ 10 ≤ cl.bounding_box.h from
      key (List.range clusters.length) clusters h
    intro ps
    induction ps with
    | nil => intro st hst; exact hst
    | cons p t ih =>
      intro st hst
      simp only [List.foldl_cons]
      exact ih _ (ensure_inner_floor _ _ st hst)

/-- C3 (amended): provided every input diagram and connector box lies in
the page, the padding is at least 10 px (the default), and the page is at
least 10 px each way, every cluster returned by cluster_diagrams lies fully
within the page with both sides ≥ 10 px; the subsequent non-overlap pass
preserves x ≥ 0, y ≥ 0 and the 10 px floor, but (per the counterexample)
its floor-clamped shifts can push a box's far edge past the page boundary,
so the full pipeline only guarantees the origin-side bounds and the floor. -/
theorem clustering_pipeline_bounds (cfg : Config)
    (d c h : List ShapeInfo) (imageH imageW : ℤ)
    (hpad : 10 ≤ cfg.padding) (hH : 10 ≤ imageH) (hW : 10 ≤ imageW)
    (hd : ∀ s ∈ d, box_in_page imageH imageW s.bbox)
    (hc : ∀ s ∈ c, box_in_page imageH imageW s.bbox) :
    (∀ cl ∈ cluster_diagrams cfg d c h imageH imageW,
      box_within_page imageH imageW cl.bounding_box ∧
      10 ≤ cl.bounding_box.w ∧ 10 ≤ cl.bounding_box.h)
    ∧ (∀ cl ∈ ensure_non_overlapping_boxes
        (cluster_diagrams cfg d c h imageH imageW),
      0 ≤ cl.bounding_box.x ∧ 0 ≤ cl.bounding_box.y ∧
      10 ≤ cl.bounding_box.w ∧ 10 ≤ cl.bounding_box.h) := by
  have hpart1 : ∀ cl ∈ cluster_diagrams cfg d c h imageH imageW,
      box_within_page imageH imageW cl.bounding_box ∧
      10 ≤ cl.bounding_box.w ∧ 10 ≤ cl.bounding_box.h := by
    intro cl hcl
    obtain ⟨c0, hc0, heq⟩ := cluster_diagrams_mem cfg d c h imageH imageW cl hcl
    obtain ⟨-, cand, hcand, heq2⟩ :=
      accepted_clusters_spec cfg d c h imageH imageW c0 hc0
    have hbox : cl.bounding_box = cand.bounding_box := by
      rw [heq, heq2]
    rw [hbox]
    exact candidate_box_good cfg d c imageH imageW hpad hH hW hd hc cand hcand
  refine ⟨hpart1, ensure_floor _ ?_⟩
  intro cl hcl
  obtain ⟨⟨h1, h2, _, _⟩, h5, h6⟩ := hpart1 cl hcl
  exact ⟨h1, h2, h5, h6⟩

/-- The six diagram shapes of the out-of-page counterexample: five 1×1
shapes chained 150 px apart (one cluster whose padded box fills the whole
320×320 page) and one 1×1 shape at the lower-left corner inside that
envelope but more than 150 px from every chain member (its own cluster). -/
def chainShapes : List ShapeInfo :=
  [⟨⟨0, 100⟩, ⟨0, 0, 1, 1⟩, 1⟩, ⟨⟨1, 100⟩, ⟨151, 0, 1, 1⟩, 1⟩,
   ⟨⟨2, 100⟩, ⟨302, 0, 1, 1⟩, 1⟩, ⟨⟨3, 100⟩, ⟨302, 151, 1, 1⟩, 1⟩,
   ⟨⟨4, 100⟩, ⟨302, 302, 1, 1⟩, 1⟩, ⟨⟨5, 1⟩, ⟨0, 302, 1, 1⟩, 1⟩]

/-- C3 counterexample: all six input boxes lie in the 320×320 page, yet
after the non-overlap pass the smaller cluster's box is (0, 321, 21, 10) —
its bottom edge at 331 lies past the page boundary, violating the claimed
invariant for the pipeline. -/
theorem clustering_pipeline_bounds_counterexample :
    (∀ s ∈ chainShapes, box_in_page 320 320 s.bbox)
    ∧ ¬ (∀ b ∈ (ensure_non_overlapping_boxes
        (cluster_diagrams defaultConfig chainShapes [] [] 320 320)).map
          (·.bounding_box),
        box_within_page 320 320 b ∧ 10 ≤ b.w ∧ 10 ≤ b.h) := by
  constructor
  · decide
  · decide

theorem clustering_pipeline_bounds_witness :
    (∀ s ∈ ([⟨⟨0, 9⟩, ⟨50, 50, 30, 30⟩, 0.8⟩] : List ShapeInfo),
      box_in_page 200 200 s.bbox)
    ∧ (∀ cl ∈ cluster_diagrams defaultConfig
        [⟨⟨0, 9⟩, ⟨50, 50, 30, 30⟩, 0.8⟩] [] [] 200 200,
      box_within_page 200 200 cl.bounding_box ∧
      10 ≤ cl.bounding_box.w ∧ 10 ≤ cl.bounding_box.h)
    ∧ (∀ cl ∈ ensure_non_overlapping_boxes (cluster_diagrams defaultConfig
        [⟨⟨0, 9⟩, ⟨50, 50, 30, 30⟩, 0.8⟩] [] [] 200 200),
      0 ≤ cl.bounding_box.x ∧ 0 ≤ cl.bounding_box.y ∧
      10 ≤ cl.bounding_box.w ∧ 10 ≤ cl.bounding_box.h) :=
  ⟨by decide,
   (clustering_pipeline_bounds defaultConfig
     [⟨⟨0, 9⟩, ⟨50, 50, 30, 30⟩, 0.8⟩] [] [] 200 200
     (by decide) (by decide) (by decide) (by decide) (by decide)).1,
   (clustering_pipeline_bounds defaultConfig
     [⟨⟨0, 9⟩, ⟨50, 50, 30, 30⟩, 0.8⟩] [] [] 200 200
     (by decide) (by decide) (by decide) (by decide) (by decide)).2⟩

/-! ### DFS correctness: adjacent shapes land in the same emitted
component (clusterer.py lines 222-244) -/

lemma getD_default_of_le {α : Type} : ∀ (l : List α) (i : Nat) (d : α),
    l.length ≤ i → l.getD i d = d := by
  intro l
  induction l with
  | nil => intro i d _; rfl
  | cons a t ih =>
    intro i d hi
    cases i with
    | zero => simp at hi
    | succ k => exact ih k d (by simpa using hi)

lemma lt_of_getD_true_false {l : List Bool} {i : Nat}
    (h : l.getD i true = false) : i < l.length := by
  by_contra hc
  rw [getD_default_of_le l i true (by omega)] at h
  cases h

lemma getD_set_self {α : Type} : ∀ (l : List α) (i : Nat) (v d : α),
    i < l.length → (l.set i v).getD i d = v := by
  intro l
  induction l with
  | nil => intro i v d hi; simp at hi
  | cons a t ih =>
    intro i v d hi
    cases i with
    | zero => rfl
    | succ k => exact ih k v d (by simpa using hi)

lemma getD_set_ne {α : Type} : ∀ (l : List α) (i j : Nat) (v d : α),
    i ≠ j → (l.set i v).getD j d = l.getD j d := by
  intro l
  induction l with
  | nil => intro i j v d _; rfl
  | cons a t ih =>
    intro i j v d hij
    cases i with
    | zero =>
      cases j with
      | zero => exact absurd rfl hij
      | succ m => rfl
    | succ k =>
      cases j with
      | zero => rfl
      | succ m => exact ih k m v d (fun he => hij (by rw [he]))

lemma getD_set_true_mono {l : List Bool} {cur b : Nat}
    (h : l.getD b true = true) : (l.set cur true).getD b true = true := by
  rcases eq_or_ne cur b with rfl | hne
  · rcases Nat.lt_or_ge cur l.length with hlt | hge
    · rw [getD_set_self l cur true true hlt]
    · rw [List.set_eq_of_length_le hge]
      exact h
  · rw [getD_set_ne l cur b true true hne]
    exact h

/-- Number of unvisited entries, the DFS termination measure. -/
def unvis (visited : List Bool) : Nat := (visited.filter (fun b => !b)).length

lemma unvis_set_lt {l : List Bool} {cur : Nat}
    (h : l.getD cur true = false) : unvis (l.set cur true) < unvis l := by
  induction l generalizing cur with
  | nil => cases h
  | cons a t ih =>
    cases cur with
    | zero =>
      have ha : a = false := h
      subst ha
      simp [unvis, List.filter]
    | succ k =>
      have hk : t.getD k true = false := h
      have := ih hk
      cases a <;> simp [unvis, List.filter] at * <;> omega

lemma unvis_le_length (l : List Bool) : unvis l ≤ l.length := by
  unfold unvis
  exact List.length_filter_le _ l

lemma dfs_push_length_le (adj : Nat → Nat → Bool) (n : Nat)
    (visited : List Bool) (cur : Nat) :
    (dfs_push adj n visited cur).length ≤ n := by
  unfold dfs_push
  rw [List.length_reverse]
  exact le_trans (List.length_filter_le _ _) (by simp)

lemma mem_dfs_push {adj : Nat → Nat → Bool} {n : Nat} {visited : List Bool}
    {cur b : Nat} :
    b ∈ dfs_push adj n visited cur ↔
      (b < n ∧ adj cur b = true ∧ visited.getD b true = false) := by
  unfold dfs_push
  rw [List.mem_reverse, List.mem_filter, List.mem_range]
  constructor
  · rintro ⟨h1, h2⟩
    rw [Bool.and_eq_true, Bool.not_eq_true'] at h2
    exact ⟨h1, h2.1, h2.2⟩
  · rintro ⟨h1, h2, h3⟩
    refine ⟨h1, ?_⟩
    rw [Bool.and_eq_true, Bool.not_eq_true']
    exact ⟨h2, h3⟩

/-- Specification of the DFS stack loop: (1) the visited vector keeps its
length, (2) visitedness is monotone, (3) every vertex of the emitted
component has all its neighbours visited on exit, (4) the emitted component
is exactly the set of newly visited vertices. -/
lemma dfs_loop_spec (adj : Nat → Nat → Bool) (n : Nat)
    (hadj : ∀ i j, adj i j = true → i < n ∧ j < n) :
    ∀ (fuel : Nat) (visited : List Bool) (stack acc : List Nat),
    visited.length = n →
    unvis visited * (n + 1) + stack.length < fuel →
    (∀ a ∈ acc, ∀ b, adj a b = true →
      visited.getD b true = true ∨ b ∈ stack) →
    (∀ a ∈ acc, visited.getD a true = true) →
    (dfs_loop adj n fuel visited stack acc).1.length = n ∧
    (∀ x, visited.getD x true = true →
      (dfs_loop adj n fuel visited stack acc).1.getD x true = true) ∧
    (∀ a ∈ (dfs_loop adj n fuel visited stack acc).2, ∀ b, adj a b = true →
      (dfs_loop adj n fuel visited stack acc).1.getD b true = true) ∧
    (∀ x, x ∈ (dfs_loop adj n fuel visited stack acc).2 ↔
      (x ∈ acc ∨ ((dfs_loop adj n fuel visited stack acc).1.getD x true = true ∧
        visited.getD x true = false))) := by
  intro fuel
  induction fuel with
  | zero =>
    intro visited stack acc _ hfuel _ _
    exact absurd hfuel (Nat.not_lt_zero _)
  | succ fuel ih =>
    intro visited stack acc hlen hfuel hclosure hacc
    cases stack with
    | nil =>
      have hstep : dfs_loop adj n (fuel + 1) visited [] acc = (visited, acc) := by
        simp only [dfs_loop]
      rw [hstep]
      refine ⟨hlen, fun x hx => hx, ?_, ?_⟩
      · intro a ha b hb
        rcases hclosure a ha b hb with hvb | hmem
        · exact hvb
        · simp at hmem
      · intro x
        constructor
        · exact fun hx => Or.inl hx
        · rintro (hx | ⟨h1, h2⟩)
          · exact hx
          · rw [h1] at h2
            cases h2
    | cons cur rest =>
      by_cases hv : visited.getD cur true = true
      · have hstep : dfs_loop adj n (fuel + 1) visited (cur :: rest) acc =
            dfs_loop adj n fuel visited rest acc := by
          simp only [dfs_loop]
          rw [if_pos hv]
        rw [hstep]
        refine ih visited rest acc hlen ?_ ?_ hacc
        · simp only [List.length_cons] at hfuel
          omega
        · intro a ha b hb
          rcases hclosure a ha b hb with hvb | hmem
          · exact Or.inl hvb
          · rcases List.mem_cons.mp hmem with rfl | hmem
            · exact Or.inl hv
            · exact Or.inr hmem
      · have hvf : visited.getD cur true = false := by
          rw [Bool.not_eq_true] at hv
          exact hv
        have hcurlt : cur < visited.length := lt_of_getD_true_false hvf
        have hstep : dfs_loop adj n (fuel + 1) visited (cur :: rest) acc =
            dfs_loop adj n fuel (visited.set cur true)
              (dfs_push adj n (visited.set cur true) cur ++ rest)
              (acc ++ [cur]) := by
          simp only [dfs_loop]
          rw [if_neg hv]
        rw [hstep]
        have pre1 : (visited.set cur true).length = n := by
          rw [List.length_set]
          exact hlen
        have pre2 : unvis (visited.set cur true) * (n + 1) +
            (dfs_push adj n (visited.set cur true) cur ++ rest).length < fuel := by
          have hu : unvis (visited.set cur true) + 1 ≤ unvis visited :=
            unvis_set_lt hvf
          have hu2 : (unvis (visited.set cur true) + 1) * (n + 1) ≤
              unvis visited * (n + 1) := Nat.mul_le_mul_right _ hu
          rw [Nat.succ_mul] at hu2
          have hp := dfs_push_length_le adj n (visited.set cur true) cur
          simp only [List.length_cons] at hfuel
          rw [List.length_append]
          linarith
        have pre3 : ∀ a ∈ acc ++ [cur], ∀ b, adj a b = true →
            (visited.set cur true).getD b true = true ∨
            b ∈ dfs_push adj n (visited.set cur true) cur ++ rest := by
          intro a ha b hb
          rcases List.mem_append.mp ha with ha | ha
          · rcases hclosure a ha b hb with hvb | hmem
            · exact Or.inl (getD_set_true_mono hvb)
            · rcases List.mem_cons.mp hmem with rfl | hmem
              · exact Or.inl (getD_set_self visited b true true hcurlt)
              · exact Or.inr (List.mem_append.mpr (Or.inr hmem))
          · have hac : a = cur := by simpa using ha
            subst hac
            by_cases hvb : (visited.set a true).getD b true = true
            · exact Or.inl hvb
            · have hbn : b < n := (hadj a b hb).2
              have hvbf : (visited.set a true).getD b true = false := by
                rw [Bool.not_eq_true] at hvb
                exact hvb
              exact Or.inr (List.mem_append.mpr
                (Or.inl (mem_dfs_push.mpr ⟨hbn, hb, hvbf⟩)))
        have pre4 : ∀ a ∈ acc ++ [cur],
            (visited.set cur true).getD a true = true := by
          intro a ha
          rcases List.mem_append.mp ha with ha | ha
          · exact getD_set_true_mono (hacc a ha)
          · have hac : a = cur := by simpa using ha
            subst hac
            exact getD_set_self visited a true true hcurlt
        obtain ⟨ihl, ihmono, ihclosed, ihacc⟩ :=
          ih (visited.set cur true)
            (dfs_push adj n (visited.set cur true) cur ++ rest)
            (acc ++ [cur]) pre1 pre2 pre3 pre4
        refine ⟨ihl, ?_, ihclosed, ?_⟩
        · intro x hx
          exact ihmono x (getD_set_true_mono hx)
        · intro x
          rw [ihacc x]
          constructor
          · rintro (hx | ⟨h1, h2⟩)
            · rcases List.mem_append.mp hx with hx | hx
              · exact Or.inl hx
              · have hxc : x = cur := by simpa using hx
                subst hxc
                exact Or.inr
                  ⟨ihmono x (getD_set_self visited x true true hcurlt), hvf⟩
            · refine Or.inr ⟨h1, ?_⟩
              rcases eq_or_ne cur x with rfl | hne
              · exact hvf
              · rw [getD_set_ne visited cur x true true hne] at h2
                exact h2
          · rintro (hx | ⟨h1, h2⟩)
            · exact Or.inl (List.mem_append.mpr (Or.inl hx))
            · rcases eq_or_ne x cur with rfl | hne
              · exact Or.inl (List.mem_append.mpr (Or.inr (by simp)))
              · refine Or.inr ⟨h1, ?_⟩
                rw [getD_set_ne visited cur x true true (fun he => hne he.symm)]
                exact h2

/-- Front-to-back structure of the emitted component list: each component
is closed into the union of the earlier ones (`seen`) plus itself, and is
disjoint from `seen`. -/
def closed_from (adj : Nat → Nat → Bool) : List Nat → List (List Nat) → Prop
  | _, [] => True
  | seen, comp :: rest =>
    (∀ a ∈ comp, ∀ b, adj a b = true → b ∈ seen ∨ b ∈ comp) ∧
    (∀ x ∈ comp, x ∉ seen) ∧
    closed_from adj (seen ++ comp) rest

lemma closed_from_append (adj : Nat → Nat → Bool) :
    ∀ (comps : List (List Nat)) (seen comp : List Nat),
    closed_from adj seen comps →
    (∀ a ∈ comp, ∀ b, adj a b = true →
      b ∈ seen ++ comps.flatten ∨ b ∈ comp) →
    (∀ x ∈ comp, x ∉ seen ++ comps.flatten) →
    closed_from adj seen (comps ++ [comp]) := by
  intro comps
  induction comps with
  | nil =>
    intro seen comp _ hcl hdis
    refine ⟨?_, ?_, trivial⟩
    · intro a ha b hb
      rcases hcl a ha b hb with hmem | hmem
      · left; simpa using hmem
      · right; exact hmem
    · intro x hx
      have := hdis x hx
      simpa using this
  | cons c0 rest ih =>
    intro seen comp hcf hcl hdis
    obtain ⟨h1, h2, h3⟩ := hcf
    refine ⟨h1, h2, ih (seen ++ c0) comp h3 ?_ ?_⟩
    · intro a ha b hb
      rcases hcl a ha b hb with hmem | hmem
      · left
        simp only [List.flatten_cons, List.append_assoc] at hmem ⊢
        exact hmem
      · right; exact hmem
    · intro x hx
      have := hdis x hx
      simp only [List.flatten_cons, List.append_assoc] at this ⊢
      exact this

/-- With a symmetric adjacency, every emitted component is closed under
adjacency: a neighbour of a member is a member. -/
lemma closed_from_mem_comp (adj : Nat → Nat → Bool)
    (hsym : ∀ i j, adj i j = adj j i) :
    ∀ (comps : List (List Nat)) (seen : List Nat),
    closed_from adj seen comps →
    (∀ a ∈ seen, ∀ b, adj a b = true → b ∈ seen) →
    ∀ comp ∈ comps, ∀ a ∈ comp, ∀ b, adj a b = true → b ∈ comp := by
  intro comps
  induction comps with
  | nil =>
    intro seen _ _ comp hc
    simp at hc
  | cons c0 rest ih =>
    intro seen hcf hseen comp hcomp a ha b hb
    obtain ⟨h1, h2, h3⟩ := hcf
    rcases List.mem_cons.mp hcomp with rfl | hcomp
    · rcases h1 a ha b hb with hbs | hbc
      · have hba : adj b a = true := by rw [hsym b a]; exact hb
        exact absurd (hseen b hbs a hba) (h2 a ha)
      · exact hbc
    · refine ih (seen ++ c0) h3 ?_ comp hcomp a ha b hb
      intro x hx y hy
      rcases List.mem_append.mp hx with hxs | hxc
      · exact List.mem_append.mpr (Or.inl (hseen x hxs y hy))
      · rcases h1 x hxc y hy with hmem | hmem
        · exact List.mem_append.mpr (Or.inl hmem)
        · exact List.mem_append.mpr (Or.inr hmem)

lemma getD_replicate_false {n x : Nat} (hx : x < n) :
    (List.replicate n false).getD x true = false := by
  induction n generalizing x with
  | zero => omega
  | succ m ih =>
    cases x with
    | zero => rfl
    | succ k => exact ih (by omega)

/-- Invariant of the outer component-extraction loop. -/
def components_inv (adj : Nat → Nat → Bool) (n : Nat)
    (st : List Bool × List (List Nat)) : Prop :=
  st.1.length = n ∧
  closed_from adj [] st.2 ∧
  (∀ x, x < n → (st.1.getD x true = true ↔ x ∈ st.2.flatten)) ∧
  (∀ x ∈ st.2.flatten, x < n)

lemma components_step_inv (adj : Nat → Nat → Bool) (n : Nat)
    (hadj : ∀ i j, adj i j = true → i < n ∧ j < n)
    (st : List Bool × List (List Nat)) (hst : components_inv adj n st)
    (i : Nat) :
    components_inv adj n
      (if st.1.getD i true then st
       else ((dfs_loop adj n (dfs_fuel n) st.1 [i] []).1,
         st.2 ++ [(dfs_loop adj n (dfs_fuel n) st.1 [i] []).2])) := by
  obtain ⟨hlen, hclosed, hcover, hbound⟩ := hst
  split
  · exact ⟨hlen, hclosed, hcover, hbound⟩
  · have hfuel : unvis st.1 * (n + 1) + ([i] : List Nat).length < dfs_fuel n := by
      have h1 : unvis st.1 ≤ n := by
        have := unvis_le_length st.1
        omega
      have h2 : unvis st.1 * (n + 1) ≤ n * (n + 1) :=
        Nat.mul_le_mul_right _ h1
      have h3 : (n + 1) * (n + 2) = n * (n + 1) + 2 * n + 2 := by ring
      unfold dfs_fuel
      simp only [List.length_cons, List.length_nil]
      omega
    obtain ⟨rl, rmono, rclosed, racc⟩ := dfs_loop_spec adj n hadj
      (dfs_fuel n) st.1 [i] [] hlen hfuel
      (by intro a ha; simp at ha) (by intro a ha; simp at ha)
    have hnewmem : ∀ x, x ∈ (dfs_loop adj n (dfs_fuel n) st.1 [i] []).2 ↔
        ((dfs_loop adj n (dfs_fuel n) st.1 [i] []).1.getD x true = true ∧
          st.1.getD x true = false) := by
      intro x
      rw [racc x]
      simp
    have hnewlt : ∀ x ∈ (dfs_loop adj n (dfs_fuel n) st.1 [i] []).2, x < n := by
      intro x hx
      have := (hnewmem x).mp hx
      have hlt := lt_of_getD_true_false this.2
      omega
    have hcover' : ∀ x, x < n →
        ((dfs_loop adj n (dfs_fuel n) st.1 [i] []).1.getD x true = true ↔
          x ∈ (st.2 ++ [(dfs_loop adj n (dfs_fuel n) st.1 [i] []).2]).flatten) := by
      intro x hx
      simp only [List.flatten_append, List.flatten_cons, List.flatten_nil,
        List.append_nil, List.mem_append]
      constructor
      · intro hvx
        by_cases hold : st.1.getD x true = true
        · exact Or.inl ((hcover x hx).mp hold)
        · right
          rw [hnewmem x]
          rw [Bool.not_eq_true] at hold
          exact ⟨hvx, hold⟩
      · rintro (hmem | hmem)
        · exact rmono x ((hcover x hx).mpr hmem)
        · exact ((hnewmem x).mp hmem).1
    refine ⟨rl, ?_, hcover', ?_⟩
    · apply closed_from_append adj st.2 [] _ hclosed
      · intro a ha b hb
        have hvb := rclosed a ha b hb
        have hbn : b < n := (hadj a b hb).2
        have := (hcover' b hbn).mp hvb
        simp only [List.flatten_append, List.flatten_cons, List.flatten_nil,
          List.append_nil, List.mem_append] at this
        rcases this with hmem | hmem
        · left; simpa using hmem
        · right; exact hmem
      · intro x hx
        have hxf := ((hnewmem x).mp hx).2
        intro hmem
        simp only [List.nil_append] at hmem
        have hxn : x < n := hnewlt x hx
        have := (hcover x hxn).mpr hmem
        rw [this] at hxf
        cases hxf
    · intro x hx
      simp only [List.flatten_append, List.flatten_cons, List.flatten_nil,
        List.append_nil, List.mem_append] at hx
      rcases hx with hmem | hmem
      · exact hbound x hmem
      · exact hnewlt x hmem

lemma find_components_closed (adj : Nat → Nat → Bool) (n : Nat)
    (hadj : ∀ i j, adj i j = true → i < n ∧ j < n)
    (hsym : ∀ i j, adj i j = adj j i) :
    ∀ comp ∈ find_components adj n, ∀ a ∈ comp, ∀ b,
      adj a b = true → b ∈ comp := by
  have key : ∀ (seeds : List Nat) (st : List Bool × List (List Nat)),
      components_inv adj n st →
      components_inv adj n (seeds.foldl (fun st2 i =>
        if st2.1.getD i true then st2
        else
          let r := dfs_loop adj n (dfs_fuel n) st2.1 [i] []
          (r.1, st2.2 ++ [r.2])) st) := by
    intro seeds
    induction seeds with
    | nil => intro st hst; exact hst
    | cons s t ih =>
      intro st hst
      simp only [List.foldl_cons]
      exact ih _ (components_step_inv adj n hadj st hst s)
  have hinv0 : components_inv adj n
      (List.replicate n false, ([] : List (List Nat))) := by
    refine ⟨by simp, trivial, ?_, by simp⟩
    intro x hx
    simp only [List.flatten_nil, List.not_mem_nil, iff_false]
    rw [getD_replicate_false hx]
    simp
  have hfinal := key (List.range n) (List.replicate n false, []) hinv0
  intro comp hcomp
  exact closed_from_mem_comp adj hsym _ [] hfinal.2.1
    (by intro a ha; simp at ha) comp hcomp

lemma mem_allPairs {n i j : Nat} (hij : i < j) (hj : j < n) :
    (i, j) ∈ allPairs n := by
  unfold allPairs
  rw [List.mem_flatMap]
  refine ⟨i, List.mem_range.mpr (lt_trans hij hj), ?_⟩
  rw [List.mem_map]
  exact ⟨j, List.mem_filter.mpr ⟨List.mem_range.mpr hj, by simpa using hij⟩, rfl⟩

lemma find_first_idx_lt {α : Type} (p : α → Bool) :
    ∀ (l : List α) (k : Nat), find_first_idx p l = some k → k < l.length := by
  intro l
  induction l with
  | nil => intro k hk; cases hk
  | cons a t ih =>
    intro k hk
    unfold find_first_idx at hk
    split at hk
    · cases hk
      simp
    · obtain ⟨m, hm, hmk⟩ := Option.map_eq_some'.mp hk
      have := ih m hm
      simp only [List.length_cons]
      omega

lemma connected_by_connector_mem (cfg : Config)
    (dB cB : List Box) {i j k : Nat} (hij : i < j) (hj : j < dB.length)
    (hprox : should_cluster cfg (dB.getD i box0) (dB.getD j box0) = false)
    (hfind : find_first_idx (fun cb =>
      boxes_are_connected_by (dB.getD i box0) (dB.getD j box0) cb) cB
        = some k) :
    (i, j, k) ∈ connected_by_connector cfg dB cB := by
  unfold connected_by_connector
  rw [List.mem_filterMap]
  refine ⟨(i, j), mem_allPairs hij hj, ?_⟩
  rw [if_neg (by rw [hprox]; exact Bool.false_ne_true)]
  rw [hfind]

lemma adjacency_true_of_pair (cfg : Config) (dB : List Box)
    (cP : List (Nat × Nat × Nat)) {i j k : Nat} (hij : i < j)
    (hj : j < dB.length) (hmem : (i, j, k) ∈ cP) :
    adjacency cfg dB cP i j = true := by
  unfold adjacency
  dsimp only
  rw [Nat.min_eq_left (le_of_lt hij), Nat.max_eq_right (le_of_lt hij)]
  simp only [Bool.and_eq_true, Bool.or_eq_true, decide_eq_true_eq,
    List.any_eq_true]
  exact ⟨⟨⟨lt_trans hij hj, hj⟩, Nat.ne_of_lt hij⟩,
    Or.inr ⟨(i, j, k), hmem, by simp⟩⟩

lemma adjacency_symm (cfg : Config) (dB : List Box)
    (cP : List (Nat × Nat × Nat)) (i j : Nat) :
    adjacency cfg dB cP i j = adjacency cfg dB cP j i := by
  unfold adjacency
  dsimp only
  rw [Nat.min_comm j i, Nat.max_comm j i]
  rw [Bool.eq_iff_iff]
  simp only [Bool.and_eq_true, decide_eq_true_eq]
  constructor
  · rintro ⟨⟨⟨h1, h2⟩, h3⟩, h4⟩
    exact ⟨⟨⟨h2, h1⟩, Ne.symm h3⟩, h4⟩
  · rintro ⟨⟨⟨h1, h2⟩, h3⟩, h4⟩
    exact ⟨⟨⟨h2, h1⟩, Ne.symm h3⟩, h4⟩

lemma adjacency_bounds (cfg : Config) (dB : List Box)
    (cP : List (Nat × Nat × Nat)) :
    ∀ i j, adjacency cfg dB cP i j = true →
      i < dB.length ∧ j < dB.length := by
  intro i j hadj
  unfold adjacency at hadj
  simp only [Bool.and_eq_true, decide_eq_true_eq] at hadj
  exact ⟨hadj.1.1.1, hadj.1.1.2⟩

lemma contour_mem_candidate (d c : List ShapeInfo)
    (cP : List (Nat × Nat × Nat)) {ids : List Nat} {i j k : Nat}
    (hm : (i, j, k) ∈ cP) (hk : k < c.length)
    (hi : i ∈ ids) (hj : j ∈ ids) :
    (c.getD k shape0).contour ∈ candidate_contours d c cP ids := by
  unfold candidate_contours
  rw [List.mem_append]
  right
  rw [List.mem_map]
  refine ⟨k, ?_, rfl⟩
  unfold relevant_connectors
  rw [List.mem_filter]
  refine ⟨List.mem_range.mpr hk, ?_⟩
  rw [List.any_eq_true]
  exact ⟨(i, j, k), hm, by simp [hi, hj]⟩

lemma build_candidate_contour_ids (cfg : Config) (d c : List ShapeInfo)
    (cP : List (Nat × Nat × Nat)) (imageH imageW : ℤ) (ids : List Nat) :
    (build_candidate cfg d c cP imageH imageW ids).contour_ids = ids := rfl

lemma build_candidate_contours (cfg : Config) (d c : List ShapeInfo)
    (cP : List (Nat × Nat × Nat)) (imageH imageW : ℤ) (ids : List Nat) :
    (build_candidate cfg d c cP imageH imageW ids).contours
      = candidate_contours d c cP ids := rfl

/-- C6 (amended): if diagram shapes i and j are beyond the proximity
threshold but the first-match scan finds a connector bridging their boxes,
then every cluster returned by cluster_diagrams that contains i also
contains j, and reports that first matching connector's contour among its
member contours.  (The pair need not appear in the output at all: the
text-rejection filter or the diagram cap can drop the merged cluster.) -/
theorem connector_bridging (cfg : Config) (d c h : List ShapeInfo)
    (imageH imageW : ℤ) (i j k₀ : Nat) (hij : i < j) (hj : j < d.length)
    (hprox : should_cluster cfg ((d.map (·.bbox)).getD i box0)
      ((d.map (·.bbox)).getD j box0) = false)
    (hfind : find_first_idx (fun cb =>
        boxes_are_connected_by ((d.map (·.bbox)).getD i box0)
          ((d.map (·.bbox)).getD j box0) cb) (c.map (·.bbox)) = some k₀) :
    ∀ cl ∈ cluster_diagrams cfg d c h imageH imageW,
      i ∈ cl.contour_ids →
      j ∈ cl.contour_ids ∧ (c.getD k₀ shape0).contour ∈ cl.contours := by
  intro cl hcl hi
  have hjB : j < (d.map (·.bbox)).length := by simpa using hj
  have hpair : (i, j, k₀) ∈ connected_by_connector cfg (d.map (·.bbox))
      (c.map (·.bbox)) :=
    connected_by_connector_mem cfg _ _ hij hjB hprox hfind
  have hadjtrue : adjacency cfg (d.map (·.bbox))
      (connected_by_connector cfg (d.map (·.bbox)) (c.map (·.bbox))) i j
        = true :=
    adjacency_true_of_pair cfg _ _ hij hjB hpair
  obtain ⟨c0, hc0, heq⟩ := cluster_diagrams_mem cfg d c h imageH imageW cl hcl
  obtain ⟨-, cand, hcand, heq2⟩ :=
    accepted_clusters_spec cfg d c h imageH imageW c0 hc0
  have hids1 : cl.contour_ids = c0.contour_ids := by rw [heq]
  have hids2 : c0.contour_ids = cand.contour_ids := by rw [heq2]
  have hconts1 : cl.contours = c0.contours := by rw [heq]
  have hconts2 : c0.contours = cand.contours := by rw [heq2]
  unfold candidate_clusters at hcand
  dsimp only at hcand
  rw [List.mem_map] at hcand
  obtain ⟨ids, hidsmem, hbuild⟩ := hcand
  have hcandids : cand.contour_ids = ids := by
    rw [← hbuild]
    exact build_candidate_contour_ids _ _ _ _ _ _ _
  have hcandconts : cand.contours = candidate_contours d c
      (connected_by_connector cfg (d.map (·.bbox)) (c.map (·.bbox))) ids := by
    rw [← hbuild]
    exact build_candidate_contours _ _ _ _ _ _ _
  have hi2 : i ∈ ids := by
    rw [hids1, hids2, hcandids] at hi
    exact hi
  have hadjb := adjacency_bounds cfg (d.map (·.bbox))
    (connected_by_connector cfg (d.map (·.bbox)) (c.map (·.bbox)))
  have hadjs := adjacency_symm cfg (d.map (·.bbox))
    (connected_by_connector cfg (d.map (·.bbox)) (c.map (·.bbox)))
  have hclosed := find_components_closed _ _ hadjb hadjs ids hidsmem
  have hj2 : j ∈ ids := hclosed i hi2 j hadjtrue
  have hk : k₀ < c.length := by
    have := find_first_idx_lt _ _ _ hfind
    simpa using this
  refine ⟨?_, ?_⟩
  · rw [hids1, hids2, hcandids]
    exact hj2
  · rw [hconts1, hconts2, hcandconts]
    exact contour_mem_candidate d c _ hpair hk hi2 hj2

/-- Two diagram shapes 200 px apart (beyond the default 150 px proximity
threshold). -/
def bridgeDiagrams : List ShapeInfo :=
  [⟨⟨0, 50⟩, ⟨0, 0, 10, 10⟩, 1⟩, ⟨⟨1, 50⟩, ⟨200, 0, 10, 10⟩, 1⟩]

/-- A connector whose box spans the gap between the two shapes. -/
def bridgeConnector : List ShapeInfo :=
  [⟨⟨2, 30⟩, ⟨15, 2, 180, 6⟩, 1⟩]

/-- A handwriting shape covering the whole page. -/
def bridgeText : List ShapeInfo :=
  [⟨⟨3, 500⟩, ⟨0, 0, 400, 300⟩, 1⟩]

/-- C6 counterexample: the two shapes are beyond the proximity threshold
and the connector bridges them, yet cluster_diagrams returns no cluster at
all — the merged candidate is rejected by the text filter — so the claimed
"merged into a single returned cluster" fails. -/
theorem connector_bridging_counterexample :
    should_cluster defaultConfig
      ((bridgeDiagrams.map (·.bbox)).getD 0 box0)
      ((bridgeDiagrams.map (·.bbox)).getD 1 box0) = false ∧
    find_first_idx (fun cb =>
      boxes_are_connected_by ((bridgeDiagrams.map (·.bbox)).getD 0 box0)
        ((bridgeDiagrams.map (·.bbox)).getD 1 box0) cb)
      (bridgeConnector.map (·.bbox)) = some 0 ∧
    (cluster_diagrams defaultConfig bridgeDiagrams bridgeConnector
      bridgeText 300 400).map (·.id) = [] := by
  refine ⟨by decide, by decide, by decide⟩

/-- Witness for the amended bridging theorem: with no handwriting present,
the returned cluster containing shape 0 also contains shape 1 and the
connector's contour. -/
theorem connector_bridging_witness :
    1 ∈ ((cluster_diagrams defaultConfig bridgeDiagrams bridgeConnector []
      300 400).getD 0 cluster0).contour_ids ∧
    (bridgeConnector.getD 0 shape0).contour ∈
      ((cluster_diagrams defaultConfig bridgeDiagrams bridgeConnector []
        300 400).getD 0 cluster0).contours :=
  connector_bridging defaultConfig bridgeDiagrams bridgeConnector [] 300 400
    0 1 0 (by decide) (by decide) (by decide) (by decide)
    ((cluster_diagrams defaultConfig bridgeDiagrams bridgeConnector []
      300 400).getD 0 cluster0)
    (getD_mem_of_lt _ 0 cluster0 (by decide))
    (by decide)

end ImageSep
